import Mathlib

/-!
Verification of the price-level order-book engine in
src/orderbook-td/src/orderbook.rs.

The engine keeps, per side, a dense price-indexed quantity array, a presence
bitset (64 prices per block), a cached best price (i64, -1 when empty) and a
running total quantity (u64).  We embed the state as a Lean structure whose
array fields are functions Nat -> Nat (a Rust Vec of fixed length MAX_PRICE
resp. NUM_BLOCKS, always accessed in bounds by the update path), the best
prices as Int, and the u64 totals as Nat below 2 ^ 64 with the wrapping
two's-complement arithmetic of the source written as explicit mod 2 ^ 64.

Types Price = i64, Quantity = u64 and the shapes of Side and Update live in
crate::interfaces, which is not among the provided sources; they are forced
by their uses in orderbook.rs (the exhaustive matches on Update and Side and
the casts quantity as i64 / (... ) as u64 / price as usize), so the
definitions below are reconstructed from those uses.
-/

/-- MAX_PRICE from orderbook.rs: the tick-domain size. -/
def MAX_PRICE : Nat := 200001

/-- BLOCK_SIZE from orderbook.rs: prices per bitset block. -/
def BLOCK_SIZE : Nat := 64

/-- NUM_BLOCKS from orderbook.rs. -/
def NUM_BLOCKS : Nat := (MAX_PRICE + BLOCK_SIZE - 1) / BLOCK_SIZE

/-- One more than the largest u64 value: the modulus of the wrapping
64-bit arithmetic used for the cached totals. -/
def U64_MOD : Nat := 2 ^ 64

/-- Side from crate::interfaces (reconstructed from its uses). -/
inductive Side where
  | Bid
  | Ask
deriving DecidableEq

/-- Update from crate::interfaces (reconstructed from its uses): prices are
ticks (i64 in the source; the verified update path is over in-domain,
hence non-negative, ticks, so Nat), quantities u64. -/
inductive Update where
  | Set (price : Nat) (quantity : Nat) (side : Side)
  | Remove (price : Nat) (side : Side)
deriving DecidableEq

/-- The state of OrderBookImpl from orderbook.rs.  The Vec fields are
functions; the cached best prices are i64 scalars (-1 = empty); the cached
totals are u64 values kept as Nat. -/
@[ext]
structure OrderBookImpl where
  bids : Nat → Nat
  asks : Nat → Nat
  bitmask_bid : Nat → Nat
  bitmask_ask : Nat → Nat
  best_bid : Int
  best_ask : Int
  total_bid_quantity : Nat
  total_ask_quantity : Nat

/-- Wrapping cast of an i64-style intermediate value into u64: the source
computes totals with u64/i64 wrapping casts and arithmetic, whose
composition is reduction of the exact integer result mod 2 ^ 64. -/
def wrapCastU64 (x : Int) : Nat := (x % (U64_MOD : Int)).toNat

/-- Number of trailing zero bits, by at most fuel halvings
(u64::trailing_zeros runs with fuel 64 and returns 64 on input 0). -/
def ctzAux : Nat → Nat → Nat
  | _, 0 => 0
  | m, fuel+1 => if m % 2 = 1 then 0 else ctzAux (m / 2) fuel + 1

/-- u64::trailing_zeros. -/
def ctz64 (m : Nat) : Nat := ctzAux m 64

/-- The downward block scan of recompute_best_bid in orderbook.rs: check the
start block, then walk blocks downward; 63 - leading_zeros of a non-zero
u64 value is its base-2 logarithm.  Returns the best-bid encoding
(-1 when every scanned block is zero). -/
def scanDownBid (m : Nat → Nat) : Nat → Int
  | 0 => if m 0 ≠ 0 then ((0 * BLOCK_SIZE + Nat.log2 (m 0) : Nat) : Int) else -1
  | b+1 =>
    if m (b+1) ≠ 0 then (((b+1) * BLOCK_SIZE + Nat.log2 (m (b+1)) : Nat) : Int)
    else scanDownBid m b

/-- The upward block scan of recompute_best_ask in orderbook.rs: check the
current block, then walk upward while blocks remain (fuel counts the blocks
strictly above the current one that may still be visited). -/
def scanUpAsk (m : Nat → Nat) : Nat → Nat → Int
  | 0, block =>
    if m block ≠ 0 then ((block * BLOCK_SIZE + ctz64 (m block) : Nat) : Int) else -1
  | fuel+1, block =>
    if m block ≠ 0 then ((block * BLOCK_SIZE + ctz64 (m block) : Nat) : Int)
    else scanUpAsk m fuel (block+1)

namespace OrderBookImpl

/-- OrderBookImpl::get_bid. -/
def get_bid (s : OrderBookImpl) (price : Nat) : Nat := s.bids price

/-- OrderBookImpl::get_ask. -/
def get_ask (s : OrderBookImpl) (price : Nat) : Nat := s.asks price

/-- OrderBookImpl::set_bid. -/
def set_bid (s : OrderBookImpl) (price qty : Nat) : OrderBookImpl :=
  { s with bids := Function.update s.bids price qty }

/-- OrderBookImpl::set_ask. -/
def set_ask (s : OrderBookImpl) (price qty : Nat) : OrderBookImpl :=
  { s with asks := Function.update s.asks price qty }

/-- OrderBookImpl::update_bitmask_bid: set or clear bit price % 64 of block
price / 64 (!mask on u64 is mask xor (2 ^ 64 - 1)). -/
def update_bitmask_bid (s : OrderBookImpl) (price : Nat) (has_qty : Bool) : OrderBookImpl :=
  let block := price / BLOCK_SIZE
  let bit := price % BLOCK_SIZE
  let mask := 2 ^ bit
  if has_qty then
    { s with bitmask_bid := Function.update s.bitmask_bid block (s.bitmask_bid block ||| mask) }
  else
    { s with bitmask_bid :=
        Function.update s.bitmask_bid block (s.bitmask_bid block &&& ((U64_MOD - 1) ^^^ mask)) }

/-- OrderBookImpl::update_bitmask_ask. -/
def update_bitmask_ask (s : OrderBookImpl) (price : Nat) (has_qty : Bool) : OrderBookImpl :=
  let block := price / BLOCK_SIZE
  let bit := price % BLOCK_SIZE
  let mask := 2 ^ bit
  if has_qty then
    { s with bitmask_ask := Function.update s.bitmask_ask block (s.bitmask_ask block ||| mask) }
  else
    { s with bitmask_ask :=
        Function.update s.bitmask_ask block (s.bitmask_ask block &&& ((U64_MOD - 1) ^^^ mask)) }

/-- OrderBookImpl::recompute_best_bid. -/
def recompute_best_bid (s : OrderBookImpl) : OrderBookImpl :=
  let start_block := min ((max s.best_bid 0).toNat / BLOCK_SIZE) (NUM_BLOCKS - 1)
  { s with best_bid := scanDownBid s.bitmask_bid start_block }

/-- OrderBookImpl::recompute_best_ask. -/
def recompute_best_ask (s : OrderBookImpl) : OrderBookImpl :=
  let start_block := min ((max s.best_ask 0).toNat / BLOCK_SIZE) (NUM_BLOCKS - 1)
  { s with best_ask := scanUpAsk s.bitmask_ask (NUM_BLOCKS - 1 - start_block) start_block }

end OrderBookImpl

/-- OrderBook::new for OrderBookImpl. -/
def newOrderBook : OrderBookImpl :=
  { bids := fun _ => 0
    asks := fun _ => 0
    bitmask_bid := fun _ => 0
    bitmask_ask := fun _ => 0
    best_bid := -1
    best_ask := -1
    total_bid_quantity := 0
    total_ask_quantity := 0 }

namespace OrderBookImpl

/-- OrderBook::apply_update for OrderBookImpl, step for step (the Set branch
with quantity = 0 and the Remove branch are the same code twice, as in the
source). -/
def applyUpdate (s : OrderBookImpl) (u : Update) : OrderBookImpl :=
  match u with
  | Update.Set price quantity side =>
    if quantity = 0 then
      match side with
      | Side.Bid =>
        let old_qty := s.get_bid price
        if old_qty > 0 then
          let s1 := s.set_bid price 0
          let s2 := s1.update_bitmask_bid price false
          let s3 := { s2 with
            total_bid_quantity := wrapCastU64 ((s2.total_bid_quantity : Int) - (old_qty : Int)) }
          if (price : Int) = s3.best_bid then s3.recompute_best_bid else s3
        else s
      | Side.Ask =>
        let old_qty := s.get_ask price
        if old_qty > 0 then
          let s1 := s.set_ask price 0
          let s2 := s1.update_bitmask_ask price false
          let s3 := { s2 with
            total_ask_quantity := wrapCastU64 ((s2.total_ask_quantity : Int) - (old_qty : Int)) }
          if (price : Int) = s3.best_ask then s3.recompute_best_ask else s3
        else s
    else
      match side with
      | Side.Bid =>
        let old_qty := s.get_bid price
        let was_new := old_qty = 0
        let s1 := s.set_bid price quantity
        let s2 := if was_new then s1.update_bitmask_bid price true else s1
        let s3 := { s2 with
          total_bid_quantity :=
            wrapCastU64 ((s2.total_bid_quantity : Int) + ((quantity : Int) - (old_qty : Int))) }
        { s3 with best_bid := max s3.best_bid (price : Int) }
      | Side.Ask =>
        let old_qty := s.get_ask price
        let was_new := old_qty = 0
        let s1 := s.set_ask price quantity
        let s2 := if was_new then s1.update_bitmask_ask price true else s1
        let s3 := { s2 with
          total_ask_quantity :=
            wrapCastU64 ((s2.total_ask_quantity : Int) + ((quantity : Int) - (old_qty : Int))) }
        if s3.best_ask < (0 : Int) then { s3 with best_ask := (price : Int) }
        else { s3 with best_ask := min s3.best_ask (price : Int) }
  | Update.Remove price side =>
    match side with
    | Side.Bid =>
      let old_qty := s.get_bid price
      if old_qty > 0 then
        let s1 := s.set_bid price 0
        let s2 := s1.update_bitmask_bid price false
        let s3 := { s2 with
          total_bid_quantity := wrapCastU64 ((s2.total_bid_quantity : Int) - (old_qty : Int)) }
        if (price : Int) = s3.best_bid then s3.recompute_best_bid else s3
      else s
    | Side.Ask =>
      let old_qty := s.get_ask price
      if old_qty > 0 then
        let s1 := s.set_ask price 0
        let s2 := s1.update_bitmask_ask price false
        let s3 := { s2 with
          total_ask_quantity := wrapCastU64 ((s2.total_ask_quantity : Int) - (old_qty : Int)) }
        if (price : Int) = s3.best_ask then s3.recompute_best_ask else s3
      else s

/-- OrderBook::get_spread. -/
def get_spread (s : OrderBookImpl) : Option Int :=
  if s.best_bid ≥ 0 ∧ s.best_ask ≥ 0 then some (s.best_ask - s.best_bid) else none

/-- OrderBook::get_best_bid. -/
def get_best_bid (s : OrderBookImpl) : Option Int :=
  if s.best_bid ≥ 0 then some s.best_bid else none

/-- OrderBook::get_best_ask. -/
def get_best_ask (s : OrderBookImpl) : Option Int :=
  if s.best_ask ≥ 0 then some s.best_ask else none

/-- OrderBook::get_quantity_at (the in-domain read; the out-of-domain
behaviour of the unchecked access is modelled separately below). -/
def get_quantity_at (s : OrderBookImpl) (price : Nat) (side : Side) : Option Nat :=
  match side with
  | Side.Bid =>
    let qty := s.get_bid price
    if qty > 0 then some qty else none
  | Side.Ask =>
    let qty := s.get_ask price
    if qty > 0 then some qty else none

/-- OrderBook::get_total_quantity. -/
def get_total_quantity (s : OrderBookImpl) (side : Side) : Nat :=
  match side with
  | Side.Bid => s.total_bid_quantity
  | Side.Ask => s.total_ask_quantity

end OrderBookImpl

/-- The bid walk of get_top_levels: from price p downward while the price
stays non-negative and fewer than n levels are found. -/
def topBidAux (bids : Nat → Nat) : Nat → Nat → List (Int × Nat)
  | 0, n =>
    if n = 0 then [] else if bids 0 > 0 then [((0 : Int), bids 0)] else []
  | p+1, n =>
    if n = 0 then []
    else if bids (p+1) > 0 then (((p+1 : Nat) : Int), bids (p+1)) :: topBidAux bids p (n-1)
    else topBidAux bids p n

/-- The ask walk of get_top_levels: from price p upward while the price
stays below MAX_PRICE (fuel = MAX_PRICE - p) and fewer than n levels are
found. -/
def topAskAux (asks : Nat → Nat) : Nat → Nat → Nat → List (Int × Nat)
  | 0, _, _ => []
  | fuel+1, p, n =>
    if n = 0 then []
    else if asks p > 0 then (((p : Nat) : Int), asks p) :: topAskAux asks fuel (p+1) (n-1)
    else topAskAux asks fuel (p+1) n

namespace OrderBookImpl

/-- OrderBook::get_top_levels. -/
def get_top_levels (s : OrderBookImpl) (side : Side) (n : Nat) : List (Int × Nat) :=
  match side with
  | Side.Bid =>
    if s.best_bid < 0 then [] else topBidAux s.bids s.best_bid.toNat n
  | Side.Ask =>
    if s.best_ask < 0 then [] else topAskAux s.asks (MAX_PRICE - s.best_ask.toNat) s.best_ask.toNat n

end OrderBookImpl

/-- Validity of one update at the public boundary: the price is an in-domain
tick and the quantity a u64 value (forced by the source types). -/
def ValidUpdate : Update → Prop
  | Update.Set price quantity _ => price < MAX_PRICE ∧ quantity < U64_MOD
  | Update.Remove price _ => price < MAX_PRICE

instance : DecidablePred ValidUpdate := fun u =>
  match u with
  | Update.Set _ _ _ => instDecidableAnd
  | Update.Remove _ _ => Nat.decLt _ _

/-- States reachable from the fresh book through valid apply_update calls. -/
inductive Reachable : OrderBookImpl → Prop
  | init : Reachable newOrderBook
  | step (s : OrderBookImpl) (u : Update) :
      Reachable s → ValidUpdate u → Reachable (s.applyUpdate u)

/-! Specification-side functions, written from the words of the spec (maximum
or minimum occupied price, sum of the levels, ordered occupied-level lists),
to be compared with the engine's cached data. -/

/-- Greatest j with P j among j < k. -/
def findMaxBelow (P : Nat → Bool) : Nat → Option Nat
  | 0 => none
  | k+1 => if P k then some k else findMaxBelow P k

/-- Least j with P j among p ≤ j < p + fuel. -/
def findMinFrom (P : Nat → Bool) : Nat → Nat → Option Nat
  | 0, _ => none
  | fuel+1, p => if P p then some p else findMinFrom P fuel (p+1)

/-- The maximum price below k with non-zero quantity. -/
def maxOccupied (f : Nat → Nat) (k : Nat) : Option Nat :=
  findMaxBelow (fun p => f p != 0) k

/-- The minimum price below k with non-zero quantity. -/
def minOccupied (f : Nat → Nat) (k : Nat) : Option Nat :=
  findMinFrom (fun p => f p != 0) k 0

/-- Sum of the stored quantities over prices below k. -/
def sumLevels (f : Nat → Nat) : Nat → Nat
  | 0 => 0
  | k+1 => sumLevels f k + f k

/-- The best-price cache encoding of an optional price: -1 when empty. -/
def optPrice : Option Nat → Int
  | some p => (p : Int)
  | none => -1

/-- Bit p of a block-structured bitset. -/
def bitAt (m : Nat → Nat) (p : Nat) : Bool :=
  Nat.testBit (m (p / BLOCK_SIZE)) (p % BLOCK_SIZE)

/-- The occupied levels at prices p, p-1, ..., 0 in descending order. -/
def occDesc (f : Nat → Nat) : Nat → List (Int × Nat)
  | 0 => if f 0 > 0 then [((0 : Int), f 0)] else []
  | p+1 => (if f (p+1) > 0 then [(((p+1 : Nat) : Int), f (p+1))] else []) ++ occDesc f p

/-- The occupied levels at prices p, p+1, ..., p+fuel-1 in ascending order. -/
def occAscFrom (f : Nat → Nat) : Nat → Nat → List (Int × Nat)
  | 0, _ => []
  | fuel+1, p => (if f p > 0 then [(((p : Nat) : Int), f p)] else []) ++ occAscFrom f fuel (p+1)

/-- All occupied bid levels, best (highest) first. -/
def occDescFull (f : Nat → Nat) : List (Int × Nat) := occDesc f (MAX_PRICE - 1)

/-- All occupied ask levels, best (lowest) first. -/
def occAscFull (f : Nat → Nat) : List (Int × Nat) := occAscFrom f MAX_PRICE 0

/-! Boundary model of the unchecked reads: Vec::get_unchecked outside the
allocated length is an out-of-bounds access (undefined behaviour), which the
embedding makes an explicit outcome. -/

/-- Result of a raw vector read: a value, or an out-of-bounds unchecked
access. -/
inductive MemResult (α : Type) where
  | value (a : α)
  | oobAccess
deriving DecidableEq

/-- Vec::get_unchecked on a vector of the given length. -/
def vecReadU (f : Nat → Nat) (len i : Nat) : MemResult Nat :=
  if i < len then MemResult.value (f i) else MemResult.oobAccess

/-- OrderBook::get_quantity_at with the memory access made explicit: the
source reads the level store through get_unchecked with no bounds check, so
an out-of-domain price is an out-of-bounds access, not an error value. -/
def get_quantity_at_mem (s : OrderBookImpl) (price : Nat) (side : Side) : MemResult (Option Nat) :=
  match side with
  | Side.Bid =>
    match vecReadU s.bids MAX_PRICE price with
    | MemResult.value qty => MemResult.value (if qty > 0 then some qty else none)
    | MemResult.oobAccess => MemResult.oobAccess
  | Side.Ask =>
    match vecReadU s.asks MAX_PRICE price with
    | MemResult.value qty => MemResult.value (if qty > 0 then some qty else none)
    | MemResult.oobAccess => MemResult.oobAccess

/-- The state invariant tying the derived data (bitsets, cached best
prices, cached totals) to the level stores: bits mirror occupancy, the best
caches encode the extremal occupied prices, and each total is the
mod-2 ^ 64 reduction of the exact sum of its side's levels. -/
structure BookInv (s : OrderBookImpl) : Prop where
  bids_dom : ∀ p, MAX_PRICE ≤ p → s.bids p = 0
  asks_dom : ∀ p, MAX_PRICE ≤ p → s.asks p = 0
  blocks_bid : ∀ b, s.bitmask_bid b < U64_MOD
  blocks_ask : ∀ b, s.bitmask_ask b < U64_MOD
  bit_bid : ∀ p, bitAt s.bitmask_bid p = true ↔ s.bids p ≠ 0
  bit_ask : ∀ p, bitAt s.bitmask_ask p = true ↔ s.asks p ≠ 0
  best_bid_eq : s.best_bid = optPrice (maxOccupied s.bids MAX_PRICE)
  best_ask_eq : s.best_ask = optPrice (minOccupied s.asks MAX_PRICE)
  total_bid : s.total_bid_quantity = sumLevels s.bids MAX_PRICE % U64_MOD
  total_ask : s.total_ask_quantity = sumLevels s.asks MAX_PRICE % U64_MOD

/-- The level store entry of one side at one price. -/
def levelOf (s : OrderBookImpl) (side : Side) (p : Nat) : Nat :=
  match side with
  | Side.Bid => s.bids p
  | Side.Ask => s.asks p

/-- The presence bitset of one side. -/
def bitmaskOf (s : OrderBookImpl) (side : Side) : Nat → Nat :=
  match side with
  | Side.Bid => s.bitmask_bid
  | Side.Ask => s.bitmask_ask

/-- The side an update acts on. -/
def updSide : Update → Side
  | Update.Set _ _ side => side
  | Update.Remove _ side => side

/-- Observable equality of two book states: every public query answers the
same. -/
def ObsEq (a b : OrderBookImpl) : Prop :=
  a.get_best_bid = b.get_best_bid ∧
  a.get_best_ask = b.get_best_ask ∧
  a.get_spread = b.get_spread ∧
  (∀ p side, a.get_quantity_at p side = b.get_quantity_at p side) ∧
  (∀ side, a.get_total_quantity side = b.get_total_quantity side) ∧
  (∀ side n, a.get_top_levels side n = b.get_top_levels side n)

/-- Equality of the four ask-side state fields. -/
def askFieldsEq (a b : OrderBookImpl) : Prop :=
  a.asks = b.asks ∧ a.bitmask_ask = b.bitmask_ask ∧
  a.best_ask = b.best_ask ∧ a.total_ask_quantity = b.total_ask_quantity

/-- Equality of the four bid-side state fields. -/
def bidFieldsEq (a b : OrderBookImpl) : Prop :=
  a.bids = b.bids ∧ a.bitmask_bid = b.bitmask_bid ∧
  a.best_bid = b.best_bid ∧ a.total_bid_quantity = b.total_bid_quantity

/-! Sanity checks: the two concrete scenarios of the spec. -/

example :
    ((newOrderBook.applyUpdate (Update.Set 100 10 Side.Bid)).applyUpdate
      (Update.Set 105 5 Side.Ask)).get_best_bid = some 100 := by decide

example :
    ((newOrderBook.applyUpdate (Update.Set 100 10 Side.Bid)).applyUpdate
      (Update.Set 105 5 Side.Ask)).get_spread = some 5 := by decide

example :
    ((newOrderBook.applyUpdate (Update.Set 100 10 Side.Bid)).applyUpdate
      (Update.Set 105 5 Side.Ask)).get_top_levels Side.Bid 1 = [(100, 10)] := by decide

example :
    (((newOrderBook.applyUpdate (Update.Set 100 10 Side.Bid)).applyUpdate
      (Update.Set 105 5 Side.Ask)).applyUpdate
      (Update.Remove 100 Side.Bid)).get_spread = none := by decide

/-! ## Helper lemmas -/

theorem wrapCastU64_lt (x : Int) : wrapCastU64 x < U64_MOD := by
  have hpos : (0 : Int) < (U64_MOD : Int) := by
    simp [U64_MOD]
  have h := Int.emod_lt_of_pos x hpos
  have h0 := Int.emod_nonneg x (ne_of_gt hpos)
  unfold wrapCastU64
  omega

theorem wrapCastU64_of_lt {t : Nat} (h : t < U64_MOD) : wrapCastU64 (t : Int) = t := by
  unfold wrapCastU64
  rw [Int.emod_eq_of_lt (by positivity) (by exact_mod_cast h)]
  simp

/-! ## C3: Set with quantity zero behaves as Remove -/

/-- C3: for every book state, every side and every in-domain price p,
applying Set with price p and quantity 0 produces exactly the same
resulting state as applying Remove at price p on that side. -/
theorem set_zero_eq_remove (s : OrderBookImpl) (p : Nat) (side : Side)
    (hp : p < MAX_PRICE) :
    s.applyUpdate (Update.Set p 0 side) = s.applyUpdate (Update.Remove p side) := by
  cases side <;> rfl

/-- Witness for C3 at a concrete state and price. -/
theorem set_zero_eq_remove_witness :
    (newOrderBook.applyUpdate (Update.Set 100 10 Side.Bid)).applyUpdate
        (Update.Set 100 0 Side.Bid) =
      (newOrderBook.applyUpdate (Update.Set 100 10 Side.Bid)).applyUpdate
        (Update.Remove 100 Side.Bid) :=
  set_zero_eq_remove _ 100 Side.Bid (by decide)

/-! ## C7: removing an empty level is a no-op -/

/-- C7: for every book state, side and in-domain price whose level is empty,
Remove at that price, and Set with quantity 0 at that price, leave the whole
state unchanged. -/
theorem remove_empty_noop (s : OrderBookImpl) (p : Nat) (side : Side)
    (hp : p < MAX_PRICE) (h : levelOf s side p = 0) :
    s.applyUpdate (Update.Remove p side) = s ∧
      s.applyUpdate (Update.Set p 0 side) = s := by
  cases side <;>
    simp_all [OrderBookImpl.applyUpdate, OrderBookImpl.get_bid, OrderBookImpl.get_ask, levelOf]

/-- Witness for C7 on the fresh book at price 5. -/
theorem remove_empty_noop_witness :
    newOrderBook.applyUpdate (Update.Remove 5 Side.Bid) = newOrderBook ∧
      newOrderBook.applyUpdate (Update.Set 5 0 Side.Bid) = newOrderBook :=
  remove_empty_noop newOrderBook 5 Side.Bid (by decide) (by decide)

/-! ## C2: out-of-domain price: unchecked out-of-bounds access, no
InvalidPrice error -/

/-- C2 (code side): get_quantity_at at price 999999 on the domain of size
200001 performs an unchecked out-of-bounds access for every book state;
no InvalidPrice failure path exists in the code. -/
theorem get_quantity_at_oob (s : OrderBookImpl) :
    get_quantity_at_mem s 999999 Side.Bid = MemResult.oobAccess := by
  rfl

/-! ## Normal forms of the update branches -/

theorem apply_set_zero_eq_remove (s : OrderBookImpl) (p : Nat) (side : Side) :
    s.applyUpdate (Update.Set p 0 side) = s.applyUpdate (Update.Remove p side) := by
  cases side <;> rfl

theorem set_pos_bid_fields (s : OrderBookImpl) (p q : Nat) (hq : q ≠ 0) :
    s.applyUpdate (Update.Set p q Side.Bid) =
      { s with
        bids := Function.update s.bids p q
        bitmask_bid :=
          if s.bids p = 0 then
            Function.update s.bitmask_bid (p / BLOCK_SIZE)
              (s.bitmask_bid (p / BLOCK_SIZE) ||| 2 ^ (p % BLOCK_SIZE))
          else s.bitmask_bid
        total_bid_quantity :=
          wrapCastU64 ((s.total_bid_quantity : Int) + ((q : Int) - (s.bids p : Int)))
        best_bid := max s.best_bid (p : Int) } := by
  simp only [OrderBookImpl.applyUpdate, OrderBookImpl.get_bid, OrderBookImpl.set_bid,
    OrderBookImpl.update_bitmask_bid, if_neg hq]
  by_cases h : s.bids p = 0 <;> simp [h]

theorem set_pos_ask_fields (s : OrderBookImpl) (p q : Nat) (hq : q ≠ 0) :
    s.applyUpdate (Update.Set p q Side.Ask) =
      { s with
        asks := Function.update s.asks p q
        bitmask_ask :=
          if s.asks p = 0 then
            Function.update s.bitmask_ask (p / BLOCK_SIZE)
              (s.bitmask_ask (p / BLOCK_SIZE) ||| 2 ^ (p % BLOCK_SIZE))
          else s.bitmask_ask
        total_ask_quantity :=
          wrapCastU64 ((s.total_ask_quantity : Int) + ((q : Int) - (s.asks p : Int)))
        best_ask :=
          if s.best_ask < (0 : Int) then (p : Int) else min s.best_ask (p : Int) } := by
  simp only [OrderBookImpl.applyUpdate, OrderBookImpl.get_ask, OrderBookImpl.set_ask,
    OrderBookImpl.update_bitmask_ask, if_neg hq]
  by_cases h : s.asks p = 0 <;> by_cases h2 : s.best_ask < (0 : Int) <;> simp [h, h2]

theorem remove_bid_fields (s : OrderBookImpl) (p : Nat) :
    s.applyUpdate (Update.Remove p Side.Bid) =
      if s.bids p = 0 then s
      else
        if (p : Int) = s.best_bid then
          { s with
            bids := Function.update s.bids p 0
            bitmask_bid :=
              Function.update s.bitmask_bid (p / BLOCK_SIZE)
                (s.bitmask_bid (p / BLOCK_SIZE) &&& ((U64_MOD - 1) ^^^ 2 ^ (p % BLOCK_SIZE)))
            total_bid_quantity :=
              wrapCastU64 ((s.total_bid_quantity : Int) - (s.bids p : Int))
            best_bid :=
              scanDownBid
                (Function.update s.bitmask_bid (p / BLOCK_SIZE)
                  (s.bitmask_bid (p / BLOCK_SIZE) &&& ((U64_MOD - 1) ^^^ 2 ^ (p % BLOCK_SIZE))))
                (min ((max s.best_bid 0).toNat / BLOCK_SIZE) (NUM_BLOCKS - 1)) }
        else
          { s with
            bids := Function.update s.bids p 0
            bitmask_bid :=
              Function.update s.bitmask_bid (p / BLOCK_SIZE)
                (s.bitmask_bid (p / BLOCK_SIZE) &&& ((U64_MOD - 1) ^^^ 2 ^ (p % BLOCK_SIZE)))
            total_bid_quantity :=
              wrapCastU64 ((s.total_bid_quantity : Int) - (s.bids p : Int)) } := by
  simp only [OrderBookImpl.applyUpdate, OrderBookImpl.get_bid, OrderBookImpl.set_bid,
    OrderBookImpl.update_bitmask_bid, OrderBookImpl.recompute_best_bid]
  by_cases h : s.bids p = 0 <;> by_cases h2 : (p : Int) = s.best_bid <;>
    simp [h, h2, Nat.pos_of_ne_zero]

theorem remove_ask_fields (s : OrderBookImpl) (p : Nat) :
    s.applyUpdate (Update.Remove p Side.Ask) =
      if s.asks p = 0 then s
      else
        if (p : Int) = s.best_ask then
          { s with
            asks := Function.update s.asks p 0
            bitmask_ask :=
              Function.update s.bitmask_ask (p / BLOCK_SIZE)
                (s.bitmask_ask (p / BLOCK_SIZE) &&& ((U64_MOD - 1) ^^^ 2 ^ (p % BLOCK_SIZE)))
            total_ask_quantity :=
              wrapCastU64 ((s.total_ask_quantity : Int) - (s.asks p : Int))
            best_ask :=
              scanUpAsk
                (Function.update s.bitmask_ask (p / BLOCK_SIZE)
                  (s.bitmask_ask (p / BLOCK_SIZE) &&& ((U64_MOD - 1) ^^^ 2 ^ (p % BLOCK_SIZE))))
                (NUM_BLOCKS - 1 - min ((max s.best_ask 0).toNat / BLOCK_SIZE) (NUM_BLOCKS - 1))
                (min ((max s.best_ask 0).toNat / BLOCK_SIZE) (NUM_BLOCKS - 1)) }
        else
          { s with
            asks := Function.update s.asks p 0
            bitmask_ask :=
              Function.update s.bitmask_ask (p / BLOCK_SIZE)
                (s.bitmask_ask (p / BLOCK_SIZE) &&& ((U64_MOD - 1) ^^^ 2 ^ (p % BLOCK_SIZE)))
            total_ask_quantity :=
              wrapCastU64 ((s.total_ask_quantity : Int) - (s.asks p : Int)) } := by
  simp only [OrderBookImpl.applyUpdate, OrderBookImpl.get_ask, OrderBookImpl.set_ask,
    OrderBookImpl.update_bitmask_ask, OrderBookImpl.recompute_best_ask]
  by_cases h : s.asks p = 0 <;> by_cases h2 : (p : Int) = s.best_ask <;>
    simp [h, h2, Nat.pos_of_ne_zero]

theorem apply_remove_noop (s : OrderBookImpl) (p : Nat) (side : Side)
    (h : levelOf s side p = 0) : s.applyUpdate (Update.Remove p side) = s := by
  cases side <;> simp only [levelOf] at h
  · rw [remove_bid_fields, if_pos h]
  · rw [remove_ask_fields, if_pos h]

/-! ## C4: idempotence of Set -/

theorem apply_set_idem (s : OrderBookImpl) (p q : Nat) (side : Side) :
    (s.applyUpdate (Update.Set p q side)).applyUpdate (Update.Set p q side) =
      s.applyUpdate (Update.Set p q side) := by
  by_cases hq : q = 0
  · subst hq
    rw [apply_set_zero_eq_remove, apply_set_zero_eq_remove]
    set r := s.applyUpdate (Update.Remove p side) with hr
    have hlev : levelOf r side p = 0 := by
      cases side <;> simp only [levelOf, hr]
      · rw [remove_bid_fields]
        split_ifs with h h2 <;> simp [h, Function.update_same]
      · rw [remove_ask_fields]
        split_ifs with h h2 <;> simp [h, Function.update_same]
    exact apply_remove_noop r p side hlev
  · cases side
    · rw [set_pos_bid_fields s p q hq, set_pos_bid_fields _ p q hq]
      have hbid : (Function.update s.bids p q) p = q := Function.update_same p q s.bids
      ext <;> simp [hbid, hq, Function.update_idem, wrapCastU64_of_lt (wrapCastU64_lt _),
        max_assoc]
    · rw [set_pos_ask_fields s p q hq, set_pos_ask_fields _ p q hq]
      have hask : (Function.update s.asks p q) p = q := Function.update_same p q s.asks
      have hba : ¬ (if s.best_ask < (0 : Int) then (p : Int)
          else min s.best_ask (p : Int)) < (0 : Int) := by
        by_cases h : s.best_ask < (0 : Int) <;> simp [h, le_min_iff]
      ext <;> simp [hask, hq, Function.update_idem, wrapCastU64_of_lt (wrapCastU64_lt _),
        hba]
      by_cases h : s.best_ask < (0 : Int) <;> simp [h, min_assoc]

theorem obsEq_of_eq {a b : OrderBookImpl} (h : a = b) : ObsEq a b := by
  subst h
  exact ⟨rfl, rfl, rfl, fun _ _ => rfl, fun _ => rfl, fun _ _ => rfl⟩

/-- C4: applying the same in-domain Set update twice yields a state
observably identical (same bestBid, bestAsk, spread, quantityAt everywhere,
totalQuantity and topLevels) to applying it once. -/
theorem set_idempotent_obs (s : OrderBookImpl) (p q : Nat) (side : Side)
    (h : ValidUpdate (Update.Set p q side)) :
    ObsEq ((s.applyUpdate (Update.Set p q side)).applyUpdate (Update.Set p q side))
      (s.applyUpdate (Update.Set p q side)) :=
  obsEq_of_eq (apply_set_idem s p q side)

/-- Witness for C4 at a concrete book and update. -/
theorem set_idempotent_obs_witness :
    ObsEq ((newOrderBook.applyUpdate (Update.Set 100 10 Side.Bid)).applyUpdate
        (Update.Set 100 10 Side.Bid))
      (newOrderBook.applyUpdate (Update.Set 100 10 Side.Bid)) :=
  set_idempotent_obs newOrderBook 100 10 Side.Bid (by decide)

/-! ## C10: side-framing of apply_update -/

theorem askFields_apply_bid (s : OrderBookImpl) (u : Update)
    (hside : updSide u = Side.Bid) : askFieldsEq (s.applyUpdate u) s := by
  cases u with
  | Set p q side =>
    cases side
    · by_cases hq : q = 0
      · subst hq
        rw [apply_set_zero_eq_remove, remove_bid_fields]
        split_ifs <;> exact ⟨rfl, rfl, rfl, rfl⟩
      · rw [set_pos_bid_fields s p q hq]
        exact ⟨rfl, rfl, rfl, rfl⟩
    · simp [updSide] at hside
  | Remove p side =>
    cases side
    · rw [remove_bid_fields]
      split_ifs <;> exact ⟨rfl, rfl, rfl, rfl⟩
    · simp [updSide] at hside

theorem bidFields_apply_ask (s : OrderBookImpl) (u : Update)
    (hside : updSide u = Side.Ask) : bidFieldsEq (s.applyUpdate u) s := by
  cases u with
  | Set p q side =>
    cases side
    · simp [updSide] at hside
    · by_cases hq : q = 0
      · subst hq
        rw [apply_set_zero_eq_remove, remove_ask_fields]
        split_ifs <;> exact ⟨rfl, rfl, rfl, rfl⟩
      · rw [set_pos_ask_fields s p q hq]
        exact ⟨rfl, rfl, rfl, rfl⟩
  | Remove p side =>
    cases side
    · simp [updSide] at hside
    · rw [remove_ask_fields]
      split_ifs <;> exact ⟨rfl, rfl, rfl, rfl⟩

theorem askObs_of_askFields {a b : OrderBookImpl} (h : askFieldsEq a b) :
    OrderBookImpl.get_best_ask a = OrderBookImpl.get_best_ask b ∧
    OrderBookImpl.get_total_quantity a Side.Ask = OrderBookImpl.get_total_quantity b Side.Ask ∧
    (∀ p, OrderBookImpl.get_quantity_at a p Side.Ask = OrderBookImpl.get_quantity_at b p Side.Ask) ∧
    (∀ n, OrderBookImpl.get_top_levels a Side.Ask n = OrderBookImpl.get_top_levels b Side.Ask n) := by
  obtain ⟨h1, h2, h3, h4⟩ := h
  refine ⟨?_, ?_, ?_, ?_⟩
  · simp [OrderBookImpl.get_best_ask, h3]
  · simp [OrderBookImpl.get_total_quantity, h4]
  · intro p
    simp [OrderBookImpl.get_quantity_at, OrderBookImpl.get_ask, h1]
  · intro n
    simp [OrderBookImpl.get_top_levels, h1, h3]

theorem bidObs_of_bidFields {a b : OrderBookImpl} (h : bidFieldsEq a b) :
    OrderBookImpl.get_best_bid a = OrderBookImpl.get_best_bid b ∧
    OrderBookImpl.get_total_quantity a Side.Bid = OrderBookImpl.get_total_quantity b Side.Bid ∧
    (∀ p, OrderBookImpl.get_quantity_at a p Side.Bid = OrderBookImpl.get_quantity_at b p Side.Bid) ∧
    (∀ n, OrderBookImpl.get_top_levels a Side.Bid n = OrderBookImpl.get_top_levels b Side.Bid n) := by
  obtain ⟨h1, h2, h3, h4⟩ := h
  refine ⟨?_, ?_, ?_, ?_⟩
  · simp [OrderBookImpl.get_best_bid, h3]
  · simp [OrderBookImpl.get_total_quantity, h4]
  · intro p
    simp [OrderBookImpl.get_quantity_at, OrderBookImpl.get_bid, h1]
  · intro n
    simp [OrderBookImpl.get_top_levels, h1, h3]

/-- C10: a valid update on the Bid side leaves every ask-side observable
unchanged (best ask, ask total, ask quantity at every price, ask top
levels), and symmetrically an Ask-side update leaves every bid-side
observable unchanged. -/
theorem applyUpdate_frame (s : OrderBookImpl) (u : Update) (h : ValidUpdate u) :
    (updSide u = Side.Bid →
      OrderBookImpl.get_best_ask (s.applyUpdate u) = OrderBookImpl.get_best_ask s ∧
      OrderBookImpl.get_total_quantity (s.applyUpdate u) Side.Ask =
        OrderBookImpl.get_total_quantity s Side.Ask ∧
      (∀ p, OrderBookImpl.get_quantity_at (s.applyUpdate u) p Side.Ask =
        OrderBookImpl.get_quantity_at s p Side.Ask) ∧
      (∀ n, OrderBookImpl.get_top_levels (s.applyUpdate u) Side.Ask n =
        OrderBookImpl.get_top_levels s Side.Ask n)) ∧
    (updSide u = Side.Ask →
      OrderBookImpl.get_best_bid (s.applyUpdate u) = OrderBookImpl.get_best_bid s ∧
      OrderBookImpl.get_total_quantity (s.applyUpdate u) Side.Bid =
        OrderBookImpl.get_total_quantity s Side.Bid ∧
      (∀ p, OrderBookImpl.get_quantity_at (s.applyUpdate u) p Side.Bid =
        OrderBookImpl.get_quantity_at s p Side.Bid) ∧
      (∀ n, OrderBookImpl.get_top_levels (s.applyUpdate u) Side.Bid n =
        OrderBookImpl.get_top_levels s Side.Bid n)) :=
  ⟨fun hb => askObs_of_askFields (askFields_apply_bid s u hb),
   fun ha => bidObs_of_bidFields (bidFields_apply_ask s u ha)⟩

/-- Witness for C10: a concrete bid-side update leaves the best ask alone. -/
theorem applyUpdate_frame_witness :
    OrderBookImpl.get_best_ask
        ((newOrderBook.applyUpdate (Update.Set 105 5 Side.Ask)).applyUpdate
          (Update.Set 100 10 Side.Bid)) =
      OrderBookImpl.get_best_ask (newOrderBook.applyUpdate (Update.Set 105 5 Side.Ask)) :=
  ((applyUpdate_frame (newOrderBook.applyUpdate (Update.Set 105 5 Side.Ask))
      (Update.Set 100 10 Side.Bid) (by decide)).1 (by decide)).1

/-! ## Characterizations of the specification scans -/

theorem findMaxBelow_eq_none_iff (P : Nat → Bool) (k : Nat) :
    findMaxBelow P k = none ↔ ∀ j, j < k → P j = false := by
  induction k with
  | zero =>
    simp only [findMaxBelow]
    constructor
    · intro _ j hj
      omega
    · intro _
      trivial
  | succ k ih =>
    simp only [findMaxBelow]
    cases hP : P k
    · simp only [Bool.false_eq_true, if_false, ih]
      constructor
      · intro h j hj
        rcases Nat.lt_succ_iff_lt_or_eq.mp hj with h1 | rfl
        · exact h j h1
        · exact hP
      · intro h j hj
        exact h j (by omega)
    · simp only [hP, if_true]
      constructor
      · intro h
        simp at h
      · intro h
        have := h k (Nat.lt_succ_self k)
        rw [hP] at this
        cases this

theorem findMaxBelow_eq_some_iff (P : Nat → Bool) (k r : Nat) :
    findMaxBelow P k = some r ↔
      r < k ∧ P r = true ∧ ∀ j, r < j → j < k → P j = false := by
  induction k with
  | zero =>
    simp only [findMaxBelow]
    constructor
    · intro h
      cases h
    · intro h
      omega
  | succ k ih =>
    simp only [findMaxBelow]
    cases hP : P k
    · simp only [Bool.false_eq_true, if_false, ih]
      constructor
      · rintro ⟨h1, h2, h3⟩
        refine ⟨by omega, h2, fun j hj hjk => ?_⟩
        rcases Nat.lt_succ_iff_lt_or_eq.mp hjk with h4 | rfl
        · exact h3 j hj h4
        · exact hP
      · rintro ⟨h1, h2, h3⟩
        have hrk : r ≠ k := by
          rintro rfl
          rw [hP] at h2
          cases h2
        exact ⟨by omega, h2, fun j hj hjk => h3 j hj (by omega)⟩
    · simp only [hP, if_true, Option.some_inj]
      constructor
      · rintro rfl
        exact ⟨Nat.lt_succ_self _, hP, fun j hj hjk => by omega⟩
      · rintro ⟨h1, h2, h3⟩
        by_contra hne
        have hrk : r < k := by omega
        have := h3 k hrk (Nat.lt_succ_self k)
        rw [hP] at this
        cases this

theorem findMinFrom_eq_none_iff (P : Nat → Bool) (fuel p : Nat) :
    findMinFrom P fuel p = none ↔ ∀ j, p ≤ j → j < p + fuel → P j = false := by
  induction fuel generalizing p with
  | zero =>
    simp only [findMinFrom]
    constructor
    · intro _ j h1 h2
      omega
    · intro _
      trivial
  | succ fuel ih =>
    simp only [findMinFrom]
    cases hP : P p
    · simp only [Bool.false_eq_true, if_false, ih]
      constructor
      · intro h j h1 h2
        rcases Nat.eq_or_lt_of_le h1 with rfl | h3
        · exact hP
        · exact h j h3 (by omega)
      · intro h j h1 h2
        exact h j (by omega) (by omega)
    · simp only [hP, if_true]
      constructor
      · intro h
        cases h
      · intro h
        have := h p le_rfl (by omega)
        rw [hP] at this
        cases this

theorem findMinFrom_eq_some_iff (P : Nat → Bool) (fuel p r : Nat) :
    findMinFrom P fuel p = some r ↔
      p ≤ r ∧ r < p + fuel ∧ P r = true ∧ ∀ j, p ≤ j → j < r → P j = false := by
  induction fuel generalizing p with
  | zero =>
    simp only [findMinFrom]
    constructor
    · intro h
      cases h
    · intro h
      omega
  | succ fuel ih =>
    simp only [findMinFrom]
    cases hP : P p
    · simp only [Bool.false_eq_true, if_false, ih]
      constructor
      · rintro ⟨h1, h2, h3, h4⟩
        refine ⟨by omega, by omega, h3, fun j hj hjr => ?_⟩
        rcases Nat.eq_or_lt_of_le hj with rfl | h5
        · exact hP
        · exact h4 j h5 hjr
      · rintro ⟨h1, h2, h3, h4⟩
        have hpr : p ≠ r := by
          rintro rfl
          rw [hP] at h3
          cases h3
        exact ⟨by omega, by omega, h3, fun j hj hjr => h4 j (by omega) hjr⟩
    · simp only [hP, if_true, Option.some_inj]
      constructor
      · rintro rfl
        exact ⟨le_rfl, by omega, hP, fun j hj hjr => by omega⟩
      · rintro ⟨h1, h2, h3, h4⟩
        by_contra hne
        have hpr : p < r := by omega
        have := h4 p le_rfl hpr
        rw [hP] at this
        cases this

theorem findMaxBelow_agree (P : Nat → Bool) {k1 k2 : Nat} (h12 : k1 ≤ k2)
    (h : ∀ j, k1 ≤ j → j < k2 → P j = false) :
    findMaxBelow P k2 = findMaxBelow P k1 := by
  cases h2 : findMaxBelow P k2 with
  | none =>
    rw [findMaxBelow_eq_none_iff] at h2
    symm
    rw [findMaxBelow_eq_none_iff]
    intro j hj
    exact h2 j (by omega)
  | some r =>
    rw [findMaxBelow_eq_some_iff] at h2
    obtain ⟨hr, hPr, hmax⟩ := h2
    have hrk1 : r < k1 := by
      by_contra hc
      push_neg at hc
      rw [h r hc hr] at hPr
      cases hPr
    symm
    rw [findMaxBelow_eq_some_iff]
    exact ⟨hrk1, hPr, fun j hj hjk => hmax j hj (by omega)⟩

theorem findMinFrom_agree (P : Nat → Bool) {fuel1 fuel2 p : Nat} (h12 : fuel1 ≤ fuel2)
    (h : ∀ j, p + fuel1 ≤ j → j < p + fuel2 → P j = false) :
    findMinFrom P fuel2 p = findMinFrom P fuel1 p := by
  cases h2 : findMinFrom P fuel2 p with
  | none =>
    rw [findMinFrom_eq_none_iff] at h2
    symm
    rw [findMinFrom_eq_none_iff]
    intro j h1 hj
    exact h2 j h1 (by omega)
  | some r =>
    rw [findMinFrom_eq_some_iff] at h2
    obtain ⟨h1, h2', hPr, hmin⟩ := h2
    have hrf1 : r < p + fuel1 := by
      by_contra hc
      push_neg at hc
      rw [h r hc h2'] at hPr
      cases hPr
    symm
    rw [findMinFrom_eq_some_iff]
    exact ⟨h1, hrf1, hPr, hmin⟩

theorem findMinFrom_shift (P : Nat → Bool) (d fuel p : Nat)
    (h : ∀ j, p ≤ j → j < p + d → P j = false) :
    findMinFrom P (d + fuel) p = findMinFrom P fuel (p + d) := by
  cases h2 : findMinFrom P fuel (p + d) with
  | none =>
    rw [findMinFrom_eq_none_iff] at h2
    rw [findMinFrom_eq_none_iff]
    intro j h1 hj
    by_cases hjd : j < p + d
    · exact h j h1 hjd
    · exact h2 j (by omega) (by omega)
  | some r =>
    rw [findMinFrom_eq_some_iff] at h2
    obtain ⟨h1, h2', hPr, hmin⟩ := h2
    rw [findMinFrom_eq_some_iff]
    refine ⟨by omega, by omega, hPr, fun j hj hjr => ?_⟩
    by_cases hjd : j < p + d
    · exact h j hj hjd
    · exact hmin j (by omega) hjr

/-! ## Bit-level facts -/

theorem testBit_log2_self {v : Nat} (h : v ≠ 0) :
    Nat.testBit v (Nat.log2 v) = true := by
  have h1 := Nat.log2_self_le h
  have h2 := Nat.lt_log2_self (n := v)
  have hdiv : v / 2 ^ Nat.log2 v = 1 := by
    apply Nat.div_eq_of_lt_le
    · simpa using h1
    · have : (1 + 1) * 2 ^ Nat.log2 v = 2 ^ (Nat.log2 v + 1) := by ring
      omega
  rw [Nat.testBit_to_div_mod, hdiv]
  rfl

theorem testBit_le_log2 {v i : Nat} (h : Nat.testBit v i = true) : i ≤ Nat.log2 v := by
  by_contra hc
  push_neg at hc
  have hv : v ≠ 0 := by
    rintro rfl
    rw [Nat.zero_testBit] at h
    cases h
  have hlt : v < 2 ^ i := by
    have h2 := Nat.lt_log2_self (n := v)
    have : (2 : Nat) ^ (Nat.log2 v + 1) ≤ 2 ^ i := Nat.pow_le_pow_right (by omega) (by omega)
    omega
  rw [Nat.testBit_lt_two_pow hlt] at h
  cases h

theorem log2_lt_64 {v : Nat} (h0 : v ≠ 0) (hlt : v < U64_MOD) : Nat.log2 v < 64 :=
  (Nat.log2_lt h0).mpr hlt

theorem ctzAux_spec :
    ∀ fuel v, v ≠ 0 → v < 2 ^ fuel →
      Nat.testBit v (ctzAux v fuel) = true ∧
        ∀ j, j < ctzAux v fuel → Nat.testBit v j = false := by
  intro fuel
  induction fuel with
  | zero =>
    intro v h0 hlt
    simp at hlt
    omega
  | succ fuel ih =>
    intro v h0 hlt
    simp only [ctzAux]
    by_cases h : v % 2 = 1
    · simp only [h, if_true]
      refine ⟨?_, fun j hj => by omega⟩
      rw [Nat.testBit_zero]
      simp [h]
    · simp only [h, if_false]
      have hv2 : v / 2 ≠ 0 := by omega
      have hpow : 2 ^ (fuel + 1) = 2 * 2 ^ fuel := by ring
      have hv2lt : v / 2 < 2 ^ fuel := by omega
      obtain ⟨h1, h2⟩ := ih (v / 2) hv2 hv2lt
      constructor
      · rw [Nat.add_comm (ctzAux (v / 2) fuel) 1]
        rw [show 1 + ctzAux (v / 2) fuel = (ctzAux (v / 2) fuel).succ from by omega]
        rw [Nat.testBit_succ]
        exact h1
      · intro j hj
        cases j with
        | zero =>
          rw [Nat.testBit_zero]
          simp [h]
        | succ j =>
          rw [Nat.testBit_succ]
          exact h2 j (by omega)

theorem ctz64_spec {v : Nat} (h0 : v ≠ 0) (hlt : v < U64_MOD) :
    Nat.testBit v (ctz64 v) = true ∧ ∀ j, j < ctz64 v → Nat.testBit v j = false :=
  ctzAux_spec 64 v h0 hlt

theorem ctz64_lt_64 {v : Nat} (h0 : v ≠ 0) (hlt : v < U64_MOD) : ctz64 v < 64 := by
  have h1 := (ctz64_spec h0 hlt).1
  have h2 := testBit_le_log2 h1
  have h3 := log2_lt_64 h0 hlt
  omega

/-! ## Bit updates of the block bitsets -/

theorem div_mod_eq_iff {j p : Nat} (hd : j / BLOCK_SIZE = p / BLOCK_SIZE)
    (hm : j % BLOCK_SIZE = p % BLOCK_SIZE) : j = p := by
  have hj := Nat.div_add_mod j BLOCK_SIZE
  have hp := Nat.div_add_mod p BLOCK_SIZE
  rw [hd, hm] at hj
  omega

theorem bitAt_update_set (m : Nat → Nat) (p j : Nat) :
    bitAt (Function.update m (p / BLOCK_SIZE)
        (m (p / BLOCK_SIZE) ||| 2 ^ (p % BLOCK_SIZE))) j =
      (bitAt m j || decide (j = p)) := by
  unfold bitAt
  by_cases hb : j / BLOCK_SIZE = p / BLOCK_SIZE
  · rw [hb, Function.update_same, Nat.testBit_lor, Nat.testBit_two_pow]
    by_cases hm : j % BLOCK_SIZE = p % BLOCK_SIZE
    · have : j = p := div_mod_eq_iff hb hm
      subst this
      simp [hb]
    · have hne : j ≠ p := by
        intro hjp
        subst hjp
        exact hm rfl
      have hpm : ¬ (p % BLOCK_SIZE = j % BLOCK_SIZE) := fun hx => hm hx.symm
      simp [hb, hpm, hne]
  · have : j ≠ p := by
      intro hjp
      subst hjp
      exact hb rfl
    rw [Function.update_noteq hb]
    simp [this]

theorem bitAt_update_clear (m : Nat → Nat) (p j : Nat) :
    bitAt (Function.update m (p / BLOCK_SIZE)
        (m (p / BLOCK_SIZE) &&& ((U64_MOD - 1) ^^^ 2 ^ (p % BLOCK_SIZE)))) j =
      (bitAt m j && ! decide (j = p)) := by
  unfold bitAt
  by_cases hb : j / BLOCK_SIZE = p / BLOCK_SIZE
  · rw [hb, Function.update_same, Nat.testBit_land, Nat.testBit_xor, Nat.testBit_two_pow]
    have hjm : j % BLOCK_SIZE < 64 := Nat.mod_lt _ (by decide)
    have hones : Nat.testBit (U64_MOD - 1) (j % BLOCK_SIZE) = true := by
      have : U64_MOD - 1 = 2 ^ 64 - 1 := rfl
      rw [this, Nat.testBit_two_pow_sub_one]
      simp [hjm]
    rw [hones]
    by_cases hm : j % BLOCK_SIZE = p % BLOCK_SIZE
    · have : j = p := div_mod_eq_iff hb hm
      subst this
      simp
    · have : j ≠ p := by
        intro hjp
        subst hjp
        exact hm rfl
      have hpm : ¬ p % BLOCK_SIZE = j % BLOCK_SIZE := fun hx => hm hx.symm
      simp [hpm, this]
  · have : j ≠ p := by
      intro hjp
      subst hjp
      exact hb rfl
    rw [Function.update_noteq hb]
    simp [this]

theorem blocks_update_set_lt (m : Nat → Nat) (p : Nat)
    (hlt : ∀ b, m b < U64_MOD) (b : Nat) :
    Function.update m (p / BLOCK_SIZE)
      (m (p / BLOCK_SIZE) ||| 2 ^ (p % BLOCK_SIZE)) b < U64_MOD := by
  by_cases hb : b = p / BLOCK_SIZE
  · subst hb
    rw [Function.update_same]
    apply Nat.or_lt_two_pow (hlt _)
    have : p % BLOCK_SIZE < 64 := Nat.mod_lt _ (by decide)
    calc 2 ^ (p % BLOCK_SIZE) < 2 ^ 64 := Nat.pow_lt_pow_right (by omega) this
    _ = U64_MOD := rfl
  · rw [Function.update_noteq hb]
    exact hlt b

theorem blocks_update_clear_lt (m : Nat → Nat) (p : Nat)
    (hlt : ∀ b, m b < U64_MOD) (b : Nat) :
    Function.update m (p / BLOCK_SIZE)
      (m (p / BLOCK_SIZE) &&& ((U64_MOD - 1) ^^^ 2 ^ (p % BLOCK_SIZE))) b < U64_MOD := by
  by_cases hb : b = p / BLOCK_SIZE
  · subst hb
    rw [Function.update_same]
    calc m (p / BLOCK_SIZE) &&& ((U64_MOD - 1) ^^^ 2 ^ (p % BLOCK_SIZE)) ≤ m (p / BLOCK_SIZE) :=
      Nat.and_le_left
    _ < U64_MOD := hlt _
  · rw [Function.update_noteq hb]
    exact hlt b

/-! ## Block hits and the equivalence of the code scans with the
specification scans -/

theorem findMaxBelow_block_hit (m : Nat → Nat) (b : Nat)
    (hlt : ∀ x, m x < U64_MOD) (h : m b ≠ 0) :
    findMaxBelow (bitAt m) ((b+1) * BLOCK_SIZE) =
      some (b * BLOCK_SIZE + Nat.log2 (m b)) := by
  have hBS : BLOCK_SIZE = 64 := rfl
  have hlg : Nat.log2 (m b) < 64 := log2_lt_64 h (hlt b)
  rw [findMaxBelow_eq_some_iff]
  refine ⟨by rw [hBS]; omega, ?_, ?_⟩
  · unfold bitAt
    have hdiv : (b * BLOCK_SIZE + Nat.log2 (m b)) / BLOCK_SIZE = b := by
      rw [hBS]
      omega
    have hmod : (b * BLOCK_SIZE + Nat.log2 (m b)) % BLOCK_SIZE = Nat.log2 (m b) := by
      rw [hBS]
      omega
    rw [hdiv, hmod]
    exact testBit_log2_self h
  · intro j h1 h2
    unfold bitAt
    have hjb : j / BLOCK_SIZE = b := by
      rw [hBS] at h1 h2 ⊢
      omega
    rw [hjb]
    by_contra hc
    rw [Bool.not_eq_false] at hc
    have hle := testBit_le_log2 hc
    have hdm := Nat.div_add_mod j BLOCK_SIZE
    rw [hjb] at hdm
    rw [hBS] at h1 h2 hdm hle
    omega

theorem findMinFrom_block_hit (m : Nat → Nat) (block len : Nat)
    (hlt : ∀ x, m x < U64_MOD) (h : m block ≠ 0) (hlen : BLOCK_SIZE ≤ len) :
    findMinFrom (bitAt m) len (block * BLOCK_SIZE) =
      some (block * BLOCK_SIZE + ctz64 (m block)) := by
  have hBS : BLOCK_SIZE = 64 := rfl
  have hc := ctz64_spec h (hlt block)
  have hclt : ctz64 (m block) < 64 := ctz64_lt_64 h (hlt block)
  rw [findMinFrom_eq_some_iff]
  refine ⟨Nat.le_add_right _ _, by rw [hBS] at hlen ⊢; omega, ?_, ?_⟩
  · unfold bitAt
    have hdiv : (block * BLOCK_SIZE + ctz64 (m block)) / BLOCK_SIZE = block := by
      rw [hBS]
      omega
    have hmod : (block * BLOCK_SIZE + ctz64 (m block)) % BLOCK_SIZE = ctz64 (m block) := by
      rw [hBS]
      omega
    rw [hdiv, hmod]
    exact hc.1
  · intro j h1 h2
    unfold bitAt
    have hjb : j / BLOCK_SIZE = block := by
      rw [hBS] at h1 h2 ⊢
      omega
    rw [hjb]
    apply hc.2
    have hdm := Nat.div_add_mod j BLOCK_SIZE
    rw [hjb] at hdm
    rw [hBS] at h1 h2 hdm ⊢
    omega

theorem scanDownBid_eq (m : Nat → Nat) (hlt : ∀ b, m b < U64_MOD) :
    ∀ sb, scanDownBid m sb = optPrice (findMaxBelow (bitAt m) ((sb+1) * BLOCK_SIZE)) := by
  have hBS : BLOCK_SIZE = 64 := rfl
  intro sb
  induction sb with
  | zero =>
    simp only [scanDownBid]
    by_cases h : m 0 = 0
    · rw [if_neg (not_not_intro h)]
      have hnone : findMaxBelow (bitAt m) ((0+1) * BLOCK_SIZE) = none := by
        rw [findMaxBelow_eq_none_iff]
        intro j hj
        unfold bitAt
        have hj0 : j / BLOCK_SIZE = 0 := by
          rw [hBS] at hj ⊢
          omega
        rw [hj0, h, Nat.zero_testBit]
      rw [hnone]
      rfl
    · rw [if_pos h, findMaxBelow_block_hit m 0 hlt h]
      rfl
  | succ b ih =>
    simp only [scanDownBid]
    by_cases h : m (b+1) = 0
    · rw [if_neg (not_not_intro h), ih]
      have hagree :
          findMaxBelow (bitAt m) ((b+1+1) * BLOCK_SIZE) =
            findMaxBelow (bitAt m) ((b+1) * BLOCK_SIZE) := by
        apply findMaxBelow_agree
        · rw [hBS]
          omega
        · intro j h1 h2
          unfold bitAt
          have hjb : j / BLOCK_SIZE = b + 1 := by
            rw [hBS] at h1 h2 ⊢
            omega
          rw [hjb, h, Nat.zero_testBit]
      rw [hagree]
    · rw [if_pos h, findMaxBelow_block_hit m (b+1) hlt h]
      rfl

theorem scanUpAsk_eq (m : Nat → Nat) (hlt : ∀ b, m b < U64_MOD) :
    ∀ fuel block, scanUpAsk m fuel block =
      optPrice (findMinFrom (bitAt m) ((fuel+1) * BLOCK_SIZE) (block * BLOCK_SIZE)) := by
  have hBS : BLOCK_SIZE = 64 := rfl
  intro fuel
  induction fuel with
  | zero =>
    intro block
    simp only [scanUpAsk]
    by_cases h : m block = 0
    · rw [if_neg (not_not_intro h)]
      have hnone : findMinFrom (bitAt m) ((0+1) * BLOCK_SIZE) (block * BLOCK_SIZE) = none := by
        rw [findMinFrom_eq_none_iff]
        intro j h1 h2
        unfold bitAt
        have hjb : j / BLOCK_SIZE = block := by
          rw [hBS] at h1 h2 ⊢
          omega
        rw [hjb, h, Nat.zero_testBit]
      rw [hnone]
      rfl
    · rw [if_pos h, findMinFrom_block_hit m block _ hlt h (by rw [hBS])]
      rfl
  | succ fuel ih =>
    intro block
    simp only [scanUpAsk]
    by_cases h : m block = 0
    · rw [if_neg (not_not_intro h), ih (block+1)]
      have hshift :
          findMinFrom (bitAt m) (BLOCK_SIZE + (fuel+1) * BLOCK_SIZE) (block * BLOCK_SIZE) =
            findMinFrom (bitAt m) ((fuel+1) * BLOCK_SIZE) (block * BLOCK_SIZE + BLOCK_SIZE) := by
        apply findMinFrom_shift
        intro j h1 h2
        unfold bitAt
        have hjb : j / BLOCK_SIZE = block := by
          rw [hBS] at h1 h2 ⊢
          omega
        rw [hjb, h, Nat.zero_testBit]
      have harith1 : (fuel + 1 + 1) * BLOCK_SIZE = BLOCK_SIZE + (fuel+1) * BLOCK_SIZE := by
        ring
      have harith2 : block * BLOCK_SIZE + BLOCK_SIZE = (block + 1) * BLOCK_SIZE := by
        ring
      rw [harith1, hshift, harith2]
    · rw [if_pos h, findMinFrom_block_hit m block _ hlt h (by rw [hBS]; omega)]
      rfl

/-! ## Correctness of the best-price recomputation -/

theorem recompute_best_bid_eq (s : OrderBookImpl) (M : Nat)
    (hM : M < MAX_PRICE)
    (hbb : s.best_bid = (M : Int))
    (hlt : ∀ b, s.bitmask_bid b < U64_MOD)
    (hhi : ∀ j, bitAt s.bitmask_bid j = true → j ≤ M) :
    (s.recompute_best_bid).best_bid =
      optPrice (findMaxBelow (bitAt s.bitmask_bid) MAX_PRICE) := by
  have hBS : BLOCK_SIZE = 64 := rfl
  have hMP : MAX_PRICE = 200001 := rfl
  have hNB : NUM_BLOCKS = 3126 := by norm_num [NUM_BLOCKS, MAX_PRICE, BLOCK_SIZE]
  have h1 : (max s.best_bid 0).toNat = M := by
    rw [hbb]
    rw [max_eq_left (by positivity : (0 : Int) ≤ (M : Int))]
    simp
  simp only [OrderBookImpl.recompute_best_bid, h1]
  have h2 : min (M / BLOCK_SIZE) (NUM_BLOCKS - 1) = M / BLOCK_SIZE := by
    apply min_eq_left
    rw [hBS, hNB]
    rw [hMP] at hM
    omega
  rw [h2, scanDownBid_eq _ hlt]
  congr 1
  have hub : M < (M / BLOCK_SIZE + 1) * BLOCK_SIZE := by
    rw [hBS]
    omega
  have hK1 :
      findMaxBelow (bitAt s.bitmask_bid)
          (max ((M / BLOCK_SIZE + 1) * BLOCK_SIZE) MAX_PRICE) =
        findMaxBelow (bitAt s.bitmask_bid) ((M / BLOCK_SIZE + 1) * BLOCK_SIZE) := by
    apply findMaxBelow_agree _ (le_max_left _ _)
    intro j hj1 hj2
    by_contra hc
    rw [Bool.not_eq_false] at hc
    have := hhi j hc
    omega
  have hK2 :
      findMaxBelow (bitAt s.bitmask_bid)
          (max ((M / BLOCK_SIZE + 1) * BLOCK_SIZE) MAX_PRICE) =
        findMaxBelow (bitAt s.bitmask_bid) MAX_PRICE := by
    apply findMaxBelow_agree _ (le_max_right _ _)
    intro j hj1 hj2
    by_contra hc
    rw [Bool.not_eq_false] at hc
    have := hhi j hc
    omega
  rw [← hK1, hK2]

theorem recompute_best_ask_eq (s : OrderBookImpl) (M : Nat)
    (hM : M < MAX_PRICE)
    (hba : s.best_ask = (M : Int))
    (hlt : ∀ b, s.bitmask_ask b < U64_MOD)
    (hlo : ∀ j, bitAt s.bitmask_ask j = true → M ≤ j ∧ j < MAX_PRICE) :
    (s.recompute_best_ask).best_ask =
      optPrice (findMinFrom (bitAt s.bitmask_ask) MAX_PRICE 0) := by
  have hBS : BLOCK_SIZE = 64 := rfl
  have hMP : MAX_PRICE = 200001 := rfl
  have hNB : NUM_BLOCKS = 3126 := by norm_num [NUM_BLOCKS, MAX_PRICE, BLOCK_SIZE]
  have h1 : (max s.best_ask 0).toNat = M := by
    rw [hba]
    rw [max_eq_left (by positivity : (0 : Int) ≤ (M : Int))]
    simp
  simp only [OrderBookImpl.recompute_best_ask, h1]
  have hsb : M / BLOCK_SIZE ≤ 3125 := by
    rw [hBS]
    rw [hMP] at hM
    omega
  have h2 : min (M / BLOCK_SIZE) (NUM_BLOCKS - 1) = M / BLOCK_SIZE := by
    apply min_eq_left
    rw [hBS, hNB]
    rw [hMP] at hM
    omega
  rw [h2, scanUpAsk_eq _ hlt]
  congr 1
  have hlb : M / BLOCK_SIZE * BLOCK_SIZE ≤ M := by
    rw [hBS]
    omega
  have e1 :
      findMinFrom (bitAt s.bitmask_ask) 200064 0 =
        findMinFrom (bitAt s.bitmask_ask) MAX_PRICE 0 := by
    apply findMinFrom_agree _ (by rw [hMP]; omega)
    intro j hj1 hj2
    by_contra hc
    rw [Bool.not_eq_false] at hc
    have := (hlo j hc).2
    omega
  have e2 :
      findMinFrom (bitAt s.bitmask_ask) (M / BLOCK_SIZE * BLOCK_SIZE +
          (200064 - M / BLOCK_SIZE * BLOCK_SIZE)) 0 =
        findMinFrom (bitAt s.bitmask_ask) (200064 - M / BLOCK_SIZE * BLOCK_SIZE)
          (0 + M / BLOCK_SIZE * BLOCK_SIZE) := by
    apply findMinFrom_shift
    intro j hj1 hj2
    by_contra hc
    rw [Bool.not_eq_false] at hc
    have := (hlo j hc).1
    omega
  have harith0 : M / BLOCK_SIZE * BLOCK_SIZE ≤ 200064 := by
    rw [hBS]
    omega
  have harith1 : M / BLOCK_SIZE * BLOCK_SIZE + (200064 - M / BLOCK_SIZE * BLOCK_SIZE) = 200064 := by
    omega
  have harith2 : (NUM_BLOCKS - 1 - M / BLOCK_SIZE + 1) * BLOCK_SIZE =
      200064 - M / BLOCK_SIZE * BLOCK_SIZE := by
    rw [hBS, hNB]
    rw [hBS] at hsb
    omega
  rw [harith2]
  rw [harith1] at e2
  rw [← e1, e2]
  congr 1
  omega

/-! ## Occupancy scans and sums -/

theorem maxOccupied_eq_some_iff (f : Nat → Nat) (k r : Nat) :
    maxOccupied f k = some r ↔ r < k ∧ f r ≠ 0 ∧ ∀ j, r < j → j < k → f j = 0 := by
  unfold maxOccupied
  rw [findMaxBelow_eq_some_iff]
  constructor
  · rintro ⟨h1, h2, h3⟩
    refine ⟨h1, bne_iff_ne.mp h2, fun j hj hjk => ?_⟩
    have := h3 j hj hjk
    simpa using this
  · rintro ⟨h1, h2, h3⟩
    refine ⟨h1, bne_iff_ne.mpr h2, fun j hj hjk => ?_⟩
    simpa using h3 j hj hjk

theorem maxOccupied_eq_none_iff (f : Nat → Nat) (k : Nat) :
    maxOccupied f k = none ↔ ∀ j, j < k → f j = 0 := by
  unfold maxOccupied
  rw [findMaxBelow_eq_none_iff]
  constructor
  · intro h j hj
    simpa using h j hj
  · intro h j hj
    simpa using h j hj

theorem minOccupied_eq_some_iff (f : Nat → Nat) (k r : Nat) :
    minOccupied f k = some r ↔ r < k ∧ f r ≠ 0 ∧ ∀ j, j < r → f j = 0 := by
  unfold minOccupied
  rw [findMinFrom_eq_some_iff]
  constructor
  · rintro ⟨h0, h1, h2, h3⟩
    refine ⟨by omega, bne_iff_ne.mp h2, fun j hj => ?_⟩
    simpa using h3 j (by omega) hj
  · rintro ⟨h1, h2, h3⟩
    refine ⟨by omega, by omega, bne_iff_ne.mpr h2, fun j hj hjr => ?_⟩
    simpa using h3 j hjr

theorem minOccupied_eq_none_iff (f : Nat → Nat) (k : Nat) :
    minOccupied f k = none ↔ ∀ j, j < k → f j = 0 := by
  unfold minOccupied
  rw [findMinFrom_eq_none_iff]
  constructor
  · intro h j hj
    simpa using h j (by omega) (by omega)
  · intro h j hj1 hj2
    simpa using h j (by omega)

theorem findMaxBelow_bit (m : Nat → Nat) (f : Nat → Nat)
    (hbit : ∀ j, bitAt m j = true ↔ f j ≠ 0) (k : Nat) :
    findMaxBelow (bitAt m) k = maxOccupied f k := by
  unfold maxOccupied
  congr 1
  funext j
  rw [Bool.eq_iff_iff, bne_iff_ne]
  exact hbit j

theorem findMinFrom_bit (m : Nat → Nat) (f : Nat → Nat)
    (hbit : ∀ j, bitAt m j = true ↔ f j ≠ 0) (k p : Nat) :
    findMinFrom (bitAt m) k p = findMinFrom (fun x => f x != 0) k p := by
  congr 1
  funext j
  rw [Bool.eq_iff_iff, bne_iff_ne]
  exact hbit j

theorem sumLevels_congr {f g : Nat → Nat} (k : Nat) (h : ∀ j, j < k → f j = g j) :
    sumLevels f k = sumLevels g k := by
  induction k with
  | zero => rfl
  | succ k ih =>
    simp only [sumLevels]
    rw [ih (fun j hj => h j (by omega)), h k (by omega)]

theorem sumLevels_zero_fun (k : Nat) : sumLevels (fun _ => 0) k = 0 := by
  induction k with
  | zero => rfl
  | succ k ih =>
    simp only [sumLevels, ih]

theorem sumLevels_update (f : Nat → Nat) (p q k : Nat) (hp : p < k) :
    sumLevels (Function.update f p q) k + f p = sumLevels f k + q := by
  induction k with
  | zero => omega
  | succ k ih =>
    simp only [sumLevels]
    by_cases h : p = k
    · subst h
      have hsame : sumLevels (Function.update f p q) p = sumLevels f p := by
        apply sumLevels_congr
        intro j hj
        exact Function.update_noteq (by omega) _ _
      rw [hsame, Function.update_same]
      omega
    · have hpk : p < k := by omega
      have := ih hpk
      rw [Function.update_noteq (Ne.symm h)]
      omega

theorem le_sumLevels (f : Nat → Nat) (p k : Nat) (hp : p < k) : f p ≤ sumLevels f k := by
  induction k with
  | zero => omega
  | succ k ih =>
    simp only [sumLevels]
    by_cases h : p = k
    · subst h
      omega
    · have := ih (by omega)
      omega

/-! ## Wrapping arithmetic of the cached totals -/

theorem wrap_total_add (sum q old : Nat) (hold : old ≤ sum) :
    wrapCastU64 (((sum % U64_MOD : Nat) : Int) + ((q : Int) - (old : Int))) =
      (sum - old + q) % U64_MOD := by
  unfold wrapCastU64
  have e1 : (((sum % U64_MOD : Nat) : Int) + ((q : Int) - (old : Int))) % (U64_MOD : Int) =
      ((sum : Int) + ((q : Int) - (old : Int))) % (U64_MOD : Int) := by
    rw [Int.add_emod, Int.natCast_mod, Int.emod_emod_of_dvd _ dvd_rfl, ← Int.add_emod]
  rw [e1]
  have e2 : (sum : Int) + ((q : Int) - (old : Int)) = ((sum - old + q : Nat) : Int) := by
    rw [Nat.cast_add, Nat.cast_sub hold]
    ring
  rw [e2, ← Int.natCast_mod]
  exact Int.toNat_natCast _

theorem wrap_total_sub (sum old : Nat) (hold : old ≤ sum) :
    wrapCastU64 (((sum % U64_MOD : Nat) : Int) - (old : Int)) = (sum - old) % U64_MOD := by
  unfold wrapCastU64
  have e1 : (((sum % U64_MOD : Nat) : Int) - (old : Int)) % (U64_MOD : Int) =
      ((sum : Int) - (old : Int)) % (U64_MOD : Int) := by
    rw [Int.sub_emod, Int.natCast_mod, Int.emod_emod_of_dvd _ dvd_rfl, ← Int.sub_emod]
  rw [e1]
  have e2 : (sum : Int) - (old : Int) = ((sum - old : Nat) : Int) := by
    rw [Nat.cast_sub hold]
  rw [e2, ← Int.natCast_mod]
  exact Int.toNat_natCast _

/-! ## Preservation of the invariant by apply_update -/

theorem inv_set_pos_bid (s : OrderBookImpl) (p q : Nat) (hInv : BookInv s)
    (hp : p < MAX_PRICE) (hq : q ≠ 0) :
    BookInv (s.applyUpdate (Update.Set p q Side.Bid)) := by
  obtain ⟨bd, ad, blb, bla, bb, ba, beb, bea, tb, ta⟩ := hInv
  have hle := le_sumLevels s.bids p MAX_PRICE hp
  have hsum := sumLevels_update s.bids p q MAX_PRICE hp
  have hdom' : ∀ j, MAX_PRICE ≤ j → Function.update s.bids p q j = 0 := by
    intro j hj
    rw [Function.update_noteq (by omega)]
    exact bd j hj
  have hbit_set : ∀ j, bitAt (Function.update s.bitmask_bid (p / BLOCK_SIZE)
      (s.bitmask_bid (p / BLOCK_SIZE) ||| 2 ^ (p % BLOCK_SIZE))) j = true ↔
      Function.update s.bids p q j ≠ 0 := by
    intro j
    rw [bitAt_update_set]
    by_cases hjp : j = p
    · subst hjp
      rw [Function.update_same]
      simp [hq]
    · rw [Function.update_noteq hjp]
      simp only [hjp, decide_False, Bool.or_false]
      exact bb j
  have hbit_keep : s.bids p ≠ 0 →
      ∀ j, bitAt s.bitmask_bid j = true ↔ Function.update s.bids p q j ≠ 0 := by
    intro hold j
    by_cases hjp : j = p
    · subst hjp
      rw [Function.update_same]
      exact ⟨fun _ => hq, fun _ => (bb j).mpr hold⟩
    · rw [Function.update_noteq hjp]
      exact bb j
  have hbest' : max s.best_bid (p : Int) =
      optPrice (maxOccupied (Function.update s.bids p q) MAX_PRICE) := by
    cases hmo : maxOccupied s.bids MAX_PRICE with
    | none =>
      have hz := (maxOccupied_eq_none_iff s.bids MAX_PRICE).mp hmo
      have hnew : maxOccupied (Function.update s.bids p q) MAX_PRICE = some p := by
        rw [maxOccupied_eq_some_iff]
        refine ⟨hp, by rw [Function.update_same]; exact hq, fun j hj hjk => ?_⟩
        rw [Function.update_noteq (by omega)]
        exact hz j hjk
      rw [hnew, beb, hmo]
      show max (-1 : Int) (p : Int) = (p : Int)
      exact max_eq_right (le_trans (by norm_num) (Int.natCast_nonneg p))
    | some M =>
      obtain ⟨hM, hfM, hmax⟩ := (maxOccupied_eq_some_iff s.bids MAX_PRICE M).mp hmo
      have hnew : maxOccupied (Function.update s.bids p q) MAX_PRICE = some (max M p) := by
        rw [maxOccupied_eq_some_iff]
        refine ⟨by omega, ?_, ?_⟩
        · by_cases hMp : p ≤ M
          · rw [max_eq_left hMp]
            by_cases hPM : M = p
            · subst hPM
              rw [Function.update_same]
              exact hq
            · rw [Function.update_noteq hPM]
              exact hfM
          · rw [max_eq_right (by omega : M ≤ p), Function.update_same]
            exact hq
        · intro j hj hjk
          rw [Function.update_noteq (by omega : j ≠ p)]
          exact hmax j (by omega) hjk
      rw [hnew, beb, hmo]
      show max ((M : Nat) : Int) (p : Int) = ((max M p : Nat) : Int)
      rw [Nat.cast_max]
  have htot' : wrapCastU64 ((s.total_bid_quantity : Int) + ((q : Int) - ((s.bids p) : Int))) =
      sumLevels (Function.update s.bids p q) MAX_PRICE % U64_MOD := by
    rw [tb, wrap_total_add _ _ _ hle]
    congr 1
    omega
  rw [set_pos_bid_fields s p q hq]
  by_cases hold : s.bids p = 0
  · rw [if_pos hold]
    exact ⟨hdom', ad, fun b => blocks_update_set_lt _ p blb b, bla, hbit_set, ba,
      hbest', bea, htot', ta⟩
  · rw [if_neg hold]
    exact ⟨hdom', ad, blb, bla, hbit_keep hold, ba, hbest', bea, htot', ta⟩

theorem inv_set_pos_ask (s : OrderBookImpl) (p q : Nat) (hInv : BookInv s)
    (hp : p < MAX_PRICE) (hq : q ≠ 0) :
    BookInv (s.applyUpdate (Update.Set p q Side.Ask)) := by
  obtain ⟨bd, ad, blb, bla, bb, ba, beb, bea, tb, ta⟩ := hInv
  have hle := le_sumLevels s.asks p MAX_PRICE hp
  have hsum := sumLevels_update s.asks p q MAX_PRICE hp
  have hdom' : ∀ j, MAX_PRICE ≤ j → Function.update s.asks p q j = 0 := by
    intro j hj
    rw [Function.update_noteq (by omega)]
    exact ad j hj
  have hbit_set : ∀ j, bitAt (Function.update s.bitmask_ask (p / BLOCK_SIZE)
      (s.bitmask_ask (p / BLOCK_SIZE) ||| 2 ^ (p % BLOCK_SIZE))) j = true ↔
      Function.update s.asks p q j ≠ 0 := by
    intro j
    rw [bitAt_update_set]
    by_cases hjp : j = p
    · subst hjp
      rw [Function.update_same]
      simp [hq]
    · rw [Function.update_noteq hjp]
      simp only [hjp, decide_False, Bool.or_false]
      exact ba j
  have hbit_keep : s.asks p ≠ 0 →
      ∀ j, bitAt s.bitmask_ask j = true ↔ Function.update s.asks p q j ≠ 0 := by
    intro hold j
    by_cases hjp : j = p
    · subst hjp
      rw [Function.update_same]
      exact ⟨fun _ => hq, fun _ => (ba j).mpr hold⟩
    · rw [Function.update_noteq hjp]
      exact ba j
  have hbest' : (if s.best_ask < (0 : Int) then (p : Int) else min s.best_ask (p : Int)) =
      optPrice (minOccupied (Function.update s.asks p q) MAX_PRICE) := by
    cases hmo : minOccupied s.asks MAX_PRICE with
    | none =>
      have hz := (minOccupied_eq_none_iff s.asks MAX_PRICE).mp hmo
      have hnew : minOccupied (Function.update s.asks p q) MAX_PRICE = some p := by
        rw [minOccupied_eq_some_iff]
        refine ⟨hp, by rw [Function.update_same]; exact hq, fun j hj => ?_⟩
        rw [Function.update_noteq (by omega)]
        exact hz j (by omega)
      rw [hnew, bea, hmo]
      show (if optPrice none < (0 : Int) then (p : Int) else min (optPrice none) (p : Int)) =
        optPrice (some p)
      norm_num [optPrice]
    | some M =>
      obtain ⟨hM, hfM, hmin⟩ := (minOccupied_eq_some_iff s.asks MAX_PRICE M).mp hmo
      have hnew : minOccupied (Function.update s.asks p q) MAX_PRICE = some (min M p) := by
        rw [minOccupied_eq_some_iff]
        refine ⟨by omega, ?_, ?_⟩
        · by_cases hMp : p ≤ M
          · rw [min_eq_right hMp, Function.update_same]
            exact hq
          · rw [min_eq_left (by omega : M ≤ p)]
            rw [Function.update_noteq (by omega : M ≠ p)]
            exact hfM
        · intro j hj
          rw [Function.update_noteq (by omega : j ≠ p)]
          exact hmin j (by omega)
      rw [hnew, bea, hmo]
      show (if ((M : Nat) : Int) < (0 : Int) then (p : Int)
          else min ((M : Nat) : Int) (p : Int)) = ((min M p : Nat) : Int)
      rw [if_neg (by push_neg; exact Int.natCast_nonneg M), Nat.cast_min]
  have htot' : wrapCastU64 ((s.total_ask_quantity : Int) + ((q : Int) - ((s.asks p) : Int))) =
      sumLevels (Function.update s.asks p q) MAX_PRICE % U64_MOD := by
    rw [ta, wrap_total_add _ _ _ hle]
    congr 1
    omega
  rw [set_pos_ask_fields s p q hq]
  by_cases hold : s.asks p = 0
  · rw [if_pos hold]
    exact ⟨bd, hdom', blb, fun b => blocks_update_set_lt _ p bla b, bb, hbit_set,
      beb, hbest', tb, htot'⟩
  · rw [if_neg hold]
    exact ⟨bd, hdom', blb, bla, bb, hbit_keep hold, beb, hbest', tb, htot'⟩

theorem inv_remove_bid (s : OrderBookImpl) (p : Nat) (hInv : BookInv s)
    (hp : p < MAX_PRICE) :
    BookInv (s.applyUpdate (Update.Remove p Side.Bid)) := by
  obtain ⟨bd, ad, blb, bla, bb, ba, beb, bea, tb, ta⟩ := hInv
  by_cases hold : s.bids p = 0
  · rw [remove_bid_fields, if_pos hold]
    exact ⟨bd, ad, blb, bla, bb, ba, beb, bea, tb, ta⟩
  · have hle := le_sumLevels s.bids p MAX_PRICE hp
    have hsum := sumLevels_update s.bids p 0 MAX_PRICE hp
    have hdom' : ∀ j, MAX_PRICE ≤ j → Function.update s.bids p 0 j = 0 := by
      intro j hj
      rw [Function.update_noteq (by omega)]
      exact bd j hj
    have hblocks' : ∀ b, Function.update s.bitmask_bid (p / BLOCK_SIZE)
        (s.bitmask_bid (p / BLOCK_SIZE) &&& ((U64_MOD - 1) ^^^ 2 ^ (p % BLOCK_SIZE))) b <
          U64_MOD := blocks_update_clear_lt _ p blb
    have hbit' : ∀ j, bitAt (Function.update s.bitmask_bid (p / BLOCK_SIZE)
        (s.bitmask_bid (p / BLOCK_SIZE) &&& ((U64_MOD - 1) ^^^ 2 ^ (p % BLOCK_SIZE)))) j = true ↔
        Function.update s.bids p 0 j ≠ 0 := by
      intro j
      rw [bitAt_update_clear]
      by_cases hjp : j = p
      · subst hjp
        rw [Function.update_same]
        simp
      · rw [Function.update_noteq hjp]
        simp only [hjp, decide_False, Bool.not_false, Bool.and_true]
        exact bb j
    have htot' : wrapCastU64 ((s.total_bid_quantity : Int) - ((s.bids p) : Int)) =
        sumLevels (Function.update s.bids p 0) MAX_PRICE % U64_MOD := by
      rw [tb, wrap_total_sub _ _ hle]
      congr 1
      omega
    cases hmo : maxOccupied s.bids MAX_PRICE with
    | none =>
      exact absurd ((maxOccupied_eq_none_iff s.bids MAX_PRICE).mp hmo p hp) hold
    | some M =>
      obtain ⟨hM, hfM, hmax⟩ := (maxOccupied_eq_some_iff s.bids MAX_PRICE M).mp hmo
      have hpM : p ≤ M := by
        by_contra hc
        push_neg at hc
        exact hold (hmax p hc hp)
      by_cases hbb : (p : Int) = s.best_bid
      · have hpM' : p = M := by
          rw [beb, hmo] at hbb
          have h2 : (p : Int) = (M : Int) := hbb
          exact_mod_cast h2
        subst hpM'
        rw [remove_bid_fields, if_neg hold, if_pos hbb]
        have hhi' : ∀ j, bitAt (Function.update s.bitmask_bid (p / BLOCK_SIZE)
            (s.bitmask_bid (p / BLOCK_SIZE) &&& ((U64_MOD - 1) ^^^ 2 ^ (p % BLOCK_SIZE)))) j =
              true → j ≤ p := by
          intro j hbitj
          have hf'j : Function.update s.bids p 0 j ≠ 0 := (hbit' j).mp hbitj
          have hjp : j ≠ p := by
            intro h
            subst h
            rw [Function.update_same] at hf'j
            exact hf'j rfl
          rw [Function.update_noteq hjp] at hf'j
          by_contra hc
          push_neg at hc
          by_cases hjMP : j < MAX_PRICE
          · exact hf'j (hmax j hc hjMP)
          · exact hf'j (bd j (by omega))
        have hrec := recompute_best_bid_eq
          { s with
            bids := Function.update s.bids p 0
            bitmask_bid := Function.update s.bitmask_bid (p / BLOCK_SIZE)
              (s.bitmask_bid (p / BLOCK_SIZE) &&& ((U64_MOD - 1) ^^^ 2 ^ (p % BLOCK_SIZE)))
            total_bid_quantity :=
              wrapCastU64 ((s.total_bid_quantity : Int) - ((s.bids p) : Int)) }
          p hp (by show s.best_bid = (p : Int); rw [beb, hmo]; rfl) hblocks' hhi'
        have hbest' := hrec.trans
          (congrArg optPrice (findMaxBelow_bit _ (Function.update s.bids p 0) hbit' MAX_PRICE))
        exact ⟨hdom', ad, hblocks', bla, hbit', ba, hbest', bea, htot', ta⟩
      · have hpne : p ≠ M := by
          intro h
          apply hbb
          rw [beb, hmo, h]
          rfl
        have hpltM : p < M := lt_of_le_of_ne hpM hpne
        rw [remove_bid_fields, if_neg hold, if_neg hbb]
        have hnew : maxOccupied (Function.update s.bids p 0) MAX_PRICE = some M := by
          rw [maxOccupied_eq_some_iff]
          refine ⟨hM, by rw [Function.update_noteq (Ne.symm hpne)]; exact hfM,
            fun j hj hjk => ?_⟩
          rw [Function.update_noteq (by omega : j ≠ p)]
          exact hmax j hj hjk
        have hbest' : s.best_bid =
            optPrice (maxOccupied (Function.update s.bids p 0) MAX_PRICE) := by
          rw [hnew, beb, hmo]
        exact ⟨hdom', ad, hblocks', bla, hbit', ba, hbest', bea, htot', ta⟩

theorem inv_remove_ask (s : OrderBookImpl) (p : Nat) (hInv : BookInv s)
    (hp : p < MAX_PRICE) :
    BookInv (s.applyUpdate (Update.Remove p Side.Ask)) := by
  obtain ⟨bd, ad, blb, bla, bb, ba, beb, bea, tb, ta⟩ := hInv
  by_cases hold : s.asks p = 0
  · rw [remove_ask_fields, if_pos hold]
    exact ⟨bd, ad, blb, bla, bb, ba, beb, bea, tb, ta⟩
  · have hle := le_sumLevels s.asks p MAX_PRICE hp
    have hsum := sumLevels_update s.asks p 0 MAX_PRICE hp
    have hdom' : ∀ j, MAX_PRICE ≤ j → Function.update s.asks p 0 j = 0 := by
      intro j hj
      rw [Function.update_noteq (by omega)]
      exact ad j hj
    have hblocks' : ∀ b, Function.update s.bitmask_ask (p / BLOCK_SIZE)
        (s.bitmask_ask (p / BLOCK_SIZE) &&& ((U64_MOD - 1) ^^^ 2 ^ (p % BLOCK_SIZE))) b <
          U64_MOD := blocks_update_clear_lt _ p bla
    have hbit' : ∀ j, bitAt (Function.update s.bitmask_ask (p / BLOCK_SIZE)
        (s.bitmask_ask (p / BLOCK_SIZE) &&& ((U64_MOD - 1) ^^^ 2 ^ (p % BLOCK_SIZE)))) j = true ↔
        Function.update s.asks p 0 j ≠ 0 := by
      intro j
      rw [bitAt_update_clear]
      by_cases hjp : j = p
      · subst hjp
        rw [Function.update_same]
        simp
      · rw [Function.update_noteq hjp]
        simp only [hjp, decide_False, Bool.not_false, Bool.and_true]
        exact ba j
    have htot' : wrapCastU64 ((s.total_ask_quantity : Int) - ((s.asks p) : Int)) =
        sumLevels (Function.update s.asks p 0) MAX_PRICE % U64_MOD := by
      rw [ta, wrap_total_sub _ _ hle]
      congr 1
      omega
    cases hmo : minOccupied s.asks MAX_PRICE with
    | none =>
      exact absurd ((minOccupied_eq_none_iff s.asks MAX_PRICE).mp hmo p hp) hold
    | some M =>
      obtain ⟨hM, hfM, hmin⟩ := (minOccupied_eq_some_iff s.asks MAX_PRICE M).mp hmo
      have hpM : M ≤ p := by
        by_contra hc
        push_neg at hc
        exact hold (hmin p hc)
      by_cases hba : (p : Int) = s.best_ask
      · have hpM' : p = M := by
          rw [bea, hmo] at hba
          have h2 : (p : Int) = (M : Int) := hba
          exact_mod_cast h2
        subst hpM'
        rw [remove_ask_fields, if_neg hold, if_pos hba]
        have hlo' : ∀ j, bitAt (Function.update s.bitmask_ask (p / BLOCK_SIZE)
            (s.bitmask_ask (p / BLOCK_SIZE) &&& ((U64_MOD - 1) ^^^ 2 ^ (p % BLOCK_SIZE)))) j =
              true → p ≤ j ∧ j < MAX_PRICE := by
          intro j hbitj
          have hf'j : Function.update s.asks p 0 j ≠ 0 := (hbit' j).mp hbitj
          have hjp : j ≠ p := by
            intro h
            subst h
            rw [Function.update_same] at hf'j
            exact hf'j rfl
          rw [Function.update_noteq hjp] at hf'j
          constructor
          · by_contra hc
            push_neg at hc
            exact hf'j (hmin j hc)
          · by_contra hc
            push_neg at hc
            exact hf'j (ad j hc)
        have hrec := recompute_best_ask_eq
          { s with
            asks := Function.update s.asks p 0
            bitmask_ask := Function.update s.bitmask_ask (p / BLOCK_SIZE)
              (s.bitmask_ask (p / BLOCK_SIZE) &&& ((U64_MOD - 1) ^^^ 2 ^ (p % BLOCK_SIZE)))
            total_ask_quantity :=
              wrapCastU64 ((s.total_ask_quantity : Int) - ((s.asks p) : Int)) }
          p hp (by show s.best_ask = (p : Int); rw [bea, hmo]; rfl) hblocks' hlo'
        have hbest' := hrec.trans
          (congrArg optPrice (findMinFrom_bit _ (Function.update s.asks p 0) hbit'
            MAX_PRICE 0))
        exact ⟨bd, hdom', blb, hblocks', bb, hbit', beb, hbest', tb, htot'⟩
      · have hpne : p ≠ M := by
          intro h
          apply hba
          rw [bea, hmo, h]
          rfl
        have hMltp : M < p := lt_of_le_of_ne hpM (Ne.symm hpne)
        rw [remove_ask_fields, if_neg hold, if_neg hba]
        have hnew : minOccupied (Function.update s.asks p 0) MAX_PRICE = some M := by
          rw [minOccupied_eq_some_iff]
          refine ⟨hM, by rw [Function.update_noteq (Ne.symm hpne)]; exact hfM,
            fun j hj => ?_⟩
          rw [Function.update_noteq (by omega : j ≠ p)]
          exact hmin j hj
        have hbest' : s.best_ask =
            optPrice (minOccupied (Function.update s.asks p 0) MAX_PRICE) := by
          rw [hnew, bea, hmo]
        exact ⟨bd, hdom', blb, hblocks', bb, hbit', beb, hbest', tb, htot'⟩

theorem inv_init : BookInv newOrderBook := by
  refine ⟨fun p _ => rfl, fun p _ => rfl, ?_, ?_, ?_, ?_, ?_, ?_, ?_, ?_⟩
  · intro b
    show (0 : Nat) < U64_MOD
    norm_num [U64_MOD]
  · intro b
    show (0 : Nat) < U64_MOD
    norm_num [U64_MOD]
  · intro p
    show Nat.testBit 0 (p % BLOCK_SIZE) = true ↔ (0 : Nat) ≠ 0
    simp [Nat.zero_testBit]
  · intro p
    show Nat.testBit 0 (p % BLOCK_SIZE) = true ↔ (0 : Nat) ≠ 0
    simp [Nat.zero_testBit]
  · show (-1 : Int) = optPrice (maxOccupied (fun _ => 0) MAX_PRICE)
    rw [(maxOccupied_eq_none_iff _ _).mpr (fun j _ => rfl)]
    rfl
  · show (-1 : Int) = optPrice (minOccupied (fun _ => 0) MAX_PRICE)
    rw [(minOccupied_eq_none_iff _ _).mpr (fun j _ => rfl)]
    rfl
  · rw [show newOrderBook.bids = (fun _ => 0) from rfl, sumLevels_zero_fun]
    rfl
  · rw [show newOrderBook.asks = (fun _ => 0) from rfl, sumLevels_zero_fun]
    rfl

theorem inv_step (s : OrderBookImpl) (u : Update) (hInv : BookInv s)
    (hv : ValidUpdate u) : BookInv (s.applyUpdate u) := by
  cases u with
  | Set p q side =>
    obtain ⟨hp, hq⟩ := hv
    by_cases hq0 : q = 0
    · subst hq0
      rw [apply_set_zero_eq_remove]
      cases side
      · exact inv_remove_bid s p hInv hp
      · exact inv_remove_ask s p hInv hp
    · cases side
      · exact inv_set_pos_bid s p q hInv hp hq0
      · exact inv_set_pos_ask s p q hInv hp hq0
  | Remove p side =>
    cases side
    · exact inv_remove_bid s p hInv hv
    · exact inv_remove_ask s p hInv hv

theorem inv_reachable {s : OrderBookImpl} (h : Reachable s) : BookInv s := by
  induction h with
  | init => exact inv_init
  | step s u _ hv ih => exact inv_step s u ih hv

/-! ## C1: the cached best prices track the extremal occupied prices -/

/-- C1: in every state reachable by valid apply_update calls, get_best_bid
returns the maximum price with non-zero bid quantity (none when no bid level
is occupied) and get_best_ask the minimum price with non-zero ask quantity
(none when no ask level is occupied). -/
theorem best_price_invariant (s : OrderBookImpl) (h : Reachable s) :
    OrderBookImpl.get_best_bid s =
      (maxOccupied s.bids MAX_PRICE).map (fun p => (p : Int)) ∧
    OrderBookImpl.get_best_ask s =
      (minOccupied s.asks MAX_PRICE).map (fun p => (p : Int)) := by
  obtain ⟨_, _, _, _, _, _, beb, bea, _, _⟩ := inv_reachable h
  constructor
  · unfold OrderBookImpl.get_best_bid
    rw [beb]
    cases maxOccupied s.bids MAX_PRICE with
    | none => norm_num [optPrice]
    | some M => simp [optPrice, Int.natCast_nonneg]
  · unfold OrderBookImpl.get_best_ask
    rw [bea]
    cases minOccupied s.asks MAX_PRICE with
    | none => norm_num [optPrice]
    | some M => simp [optPrice, Int.natCast_nonneg]

/-- Witness for C1 after two concrete updates. -/
theorem best_price_invariant_witness :
    OrderBookImpl.get_best_bid
        ((newOrderBook.applyUpdate (Update.Set 100 10 Side.Bid)).applyUpdate
          (Update.Set 105 5 Side.Ask)) =
      (maxOccupied ((newOrderBook.applyUpdate (Update.Set 100 10 Side.Bid)).applyUpdate
          (Update.Set 105 5 Side.Ask)).bids MAX_PRICE).map (fun p => (p : Int)) ∧
    OrderBookImpl.get_best_ask
        ((newOrderBook.applyUpdate (Update.Set 100 10 Side.Bid)).applyUpdate
          (Update.Set 105 5 Side.Ask)) =
      (minOccupied ((newOrderBook.applyUpdate (Update.Set 100 10 Side.Bid)).applyUpdate
          (Update.Set 105 5 Side.Ask)).asks MAX_PRICE).map (fun p => (p : Int)) :=
  best_price_invariant _
    (Reachable.step _ _ (Reachable.step _ _ Reachable.init (by decide)) (by decide))

/-! ## C9: the bitset mirrors occupancy -/

/-- C9: in every reachable state, for each side and in-domain price, bit p
of that side's presence bitset is set iff the stored quantity at (side, p)
is non-zero. -/
theorem bitmask_invariant (s : OrderBookImpl) (h : Reachable s) (side : Side)
    (p : Nat) (hp : p < MAX_PRICE) :
    bitAt (bitmaskOf s side) p = true ↔ levelOf s side p ≠ 0 := by
  obtain ⟨_, _, _, _, bb, ba, _, _, _, _⟩ := inv_reachable h
  cases side
  · exact bb p
  · exact ba p

/-- Witness for C9 at a concrete reachable state. -/
theorem bitmask_invariant_witness :
    bitAt (bitmaskOf (newOrderBook.applyUpdate (Update.Set 100 10 Side.Bid)) Side.Bid) 100 =
        true ↔
      levelOf (newOrderBook.applyUpdate (Update.Set 100 10 Side.Bid)) Side.Bid 100 ≠ 0 :=
  bitmask_invariant _ (Reachable.step _ _ Reachable.init (by decide)) Side.Bid 100 (by decide)

/-! ## C5: the cached totals and the sum of the levels -/

/-- C5 (amended): in every reachable state, get_total_quantity equals the
sum of the stored quantities of that side reduced mod 2 ^ 64 (the total is a
u64 counter); in particular it equals the exact sum whenever that sum is
below 2 ^ 64. -/
theorem total_quantity_mod (s : OrderBookImpl) (h : Reachable s) (side : Side) :
    OrderBookImpl.get_total_quantity s side =
      sumLevels (fun p => levelOf s side p) MAX_PRICE % U64_MOD ∧
    (sumLevels (fun p => levelOf s side p) MAX_PRICE < U64_MOD →
      OrderBookImpl.get_total_quantity s side =
        sumLevels (fun p => levelOf s side p) MAX_PRICE) := by
  obtain ⟨_, _, _, _, _, _, _, _, tb, ta⟩ := inv_reachable h
  cases side
  · exact ⟨tb, fun hlt => tb.trans (Nat.mod_eq_of_lt hlt)⟩
  · exact ⟨ta, fun hlt => ta.trans (Nat.mod_eq_of_lt hlt)⟩

/-- Witness for C5 (amended) at a concrete reachable state. -/
theorem total_quantity_mod_witness :
    OrderBookImpl.get_total_quantity (newOrderBook.applyUpdate (Update.Set 100 10 Side.Bid))
        Side.Bid =
      sumLevels (fun p => levelOf (newOrderBook.applyUpdate (Update.Set 100 10 Side.Bid))
        Side.Bid p) MAX_PRICE % U64_MOD :=
  (total_quantity_mod _ (Reachable.step _ _ Reachable.init (by decide)) Side.Bid).1

/-- C5 (counterexample to the unamended claim): two u64 updates whose exact
quantities sum to 2 ^ 64 drive the wrapping u64 total to 0, while the exact
sum of the stored levels is 2 ^ 64. -/
theorem total_quantity_counterexample :
    Reachable ((newOrderBook.applyUpdate (Update.Set 0 (2 ^ 63) Side.Bid)).applyUpdate
      (Update.Set 1 (2 ^ 63) Side.Bid)) ∧
    OrderBookImpl.get_total_quantity
        ((newOrderBook.applyUpdate (Update.Set 0 (2 ^ 63) Side.Bid)).applyUpdate
          (Update.Set 1 (2 ^ 63) Side.Bid)) Side.Bid ≠
      sumLevels (fun p => levelOf
        ((newOrderBook.applyUpdate (Update.Set 0 (2 ^ 63) Side.Bid)).applyUpdate
          (Update.Set 1 (2 ^ 63) Side.Bid)) Side.Bid p) MAX_PRICE := by
  constructor
  · exact Reachable.step _ _ (Reachable.step _ _ Reachable.init (by decide)) (by decide)
  · have hL : OrderBookImpl.get_total_quantity
        ((newOrderBook.applyUpdate (Update.Set 0 (2 ^ 63) Side.Bid)).applyUpdate
          (Update.Set 1 (2 ^ 63) Side.Bid)) Side.Bid = 0 := by decide
    have hfun : (fun p => levelOf
        ((newOrderBook.applyUpdate (Update.Set 0 (2 ^ 63) Side.Bid)).applyUpdate
          (Update.Set 1 (2 ^ 63) Side.Bid)) Side.Bid p) =
        Function.update (Function.update newOrderBook.bids 0 (2 ^ 63)) 1 (2 ^ 63) := rfl
    have e0 : newOrderBook.bids 0 = 0 := rfl
    have ezero : sumLevels newOrderBook.bids MAX_PRICE = 0 :=
      (sumLevels_congr MAX_PRICE (fun j _ => rfl)).trans (sumLevels_zero_fun MAX_PRICE)
    have h1 := sumLevels_update newOrderBook.bids 0 (2 ^ 63) MAX_PRICE
      (by norm_num [MAX_PRICE])
    have h2 := sumLevels_update (Function.update newOrderBook.bids 0 (2 ^ 63)) 1 (2 ^ 63)
      MAX_PRICE (by norm_num [MAX_PRICE])
    have h3 : Function.update newOrderBook.bids 0 (2 ^ 63) 1 = 0 := by
      rw [Function.update_noteq (by omega)]
      rfl
    rw [e0, ezero] at h1
    rw [h3] at h2
    have hR : sumLevels (Function.update (Function.update newOrderBook.bids 0 (2 ^ 63))
        1 (2 ^ 63)) MAX_PRICE = 2 ^ 64 := by
      omega
    rw [hL, hfun, hR]
    norm_num

/-! ## C6: the spread -/

/-- C6: in every reachable state, get_spread is none iff at least one side
has no occupied level; when both best prices exist it equals best ask minus
best bid; and the value can be negative in a reachable state (no crossed
book check). -/
theorem spread_characterization (s : OrderBookImpl) (h : Reachable s) :
    (OrderBookImpl.get_spread s = none ↔
      (maxOccupied s.bids MAX_PRICE = none ∨ minOccupied s.asks MAX_PRICE = none)) ∧
    (∀ b a : Int, OrderBookImpl.get_best_bid s = some b →
      OrderBookImpl.get_best_ask s = some a →
      OrderBookImpl.get_spread s = some (a - b)) ∧
    (∃ t : OrderBookImpl, Reachable t ∧
      ∃ d : Int, OrderBookImpl.get_spread t = some d ∧ d < 0) := by
  obtain ⟨_, _, _, _, _, _, beb, bea, _, _⟩ := inv_reachable h
  refine ⟨?_, ?_, ?_⟩
  · unfold OrderBookImpl.get_spread
    split_ifs with hc
    · constructor
      · intro hx
        cases hx
      · rintro (hmo | hma)
        · rw [beb, hmo] at hc
          have : ¬ ((-1 : Int) ≥ 0) := by norm_num
          exact absurd hc.1 this
        · rw [bea, hma] at hc
          have : ¬ ((-1 : Int) ≥ 0) := by norm_num
          exact absurd hc.2 this
    · constructor
      · intro _
        by_contra hn
        push_neg at hn
        obtain ⟨hmo, hma⟩ := hn
        apply hc
        constructor
        · cases hx : maxOccupied s.bids MAX_PRICE with
          | none => exact absurd hx hmo
          | some M =>
            rw [beb, hx]
            exact Int.natCast_nonneg M
        · cases hx : minOccupied s.asks MAX_PRICE with
          | none => exact absurd hx hma
          | some M =>
            rw [bea, hx]
            exact Int.natCast_nonneg M
      · intro _
        rfl
  · intro b a hb ha
    unfold OrderBookImpl.get_best_bid at hb
    unfold OrderBookImpl.get_best_ask at ha
    by_cases hbid : s.best_bid ≥ 0
    · rw [if_pos hbid] at hb
      by_cases hask : s.best_ask ≥ 0
      · rw [if_pos hask] at ha
        unfold OrderBookImpl.get_spread
        rw [if_pos ⟨hbid, hask⟩, Option.some_inj.mp hb, Option.some_inj.mp ha]
      · rw [if_neg hask] at ha
        cases ha
    · rw [if_neg hbid] at hb
      cases hb
  · refine ⟨(newOrderBook.applyUpdate (Update.Set 105 10 Side.Bid)).applyUpdate
      (Update.Set 100 5 Side.Ask), ?_, -5, by decide, by decide⟩
    exact Reachable.step _ _ (Reachable.step _ _ Reachable.init (by decide)) (by decide)

/-- Witness for C6 on a concrete reachable state. -/
theorem spread_characterization_witness :
    OrderBookImpl.get_spread newOrderBook = none ↔
      (maxOccupied newOrderBook.bids MAX_PRICE = none ∨
        minOccupied newOrderBook.asks MAX_PRICE = none) :=
  (spread_characterization newOrderBook Reachable.init).1

/-! ## C8: the top-levels walks -/

theorem topBidAux_take (f : Nat → Nat) :
    ∀ P n, topBidAux f P n = (occDesc f P).take n := by
  intro P
  induction P with
  | zero =>
    intro n
    cases n with
    | zero => simp [topBidAux, List.take_zero]
    | succ n =>
      simp only [topBidAux, occDesc]
      rw [if_neg (by omega : ¬(n + 1 = 0))]
      by_cases h : f 0 > 0
      · rw [if_pos h]
        simp
      · rw [if_neg h]
        simp
  | succ P ih =>
    intro n
    cases n with
    | zero => simp [topBidAux, List.take_zero]
    | succ n =>
      simp only [topBidAux, occDesc]
      rw [if_neg (by omega : ¬(n + 1 = 0))]
      by_cases h : f (P+1) > 0
      · rw [if_pos h, if_pos h, List.singleton_append, List.take_succ_cons]
        rw [show n + 1 - 1 = n from by omega, ih n]
      · rw [if_neg h, if_neg h, List.nil_append, ih (n+1)]

theorem topAskAux_take (f : Nat → Nat) :
    ∀ fuel p n, topAskAux f fuel p n = (occAscFrom f fuel p).take n := by
  intro fuel
  induction fuel with
  | zero =>
    intro p n
    simp [topAskAux, occAscFrom]
  | succ fuel ih =>
    intro p n
    cases n with
    | zero => simp [topAskAux, List.take_zero]
    | succ n =>
      simp only [topAskAux, occAscFrom]
      rw [if_neg (by omega : ¬(n + 1 = 0))]
      by_cases h : f p > 0
      · rw [if_pos h, if_pos h, List.singleton_append, List.take_succ_cons]
        rw [show n + 1 - 1 = n from by omega, ih (p+1) n]
      · rw [if_neg h, if_neg h, List.nil_append, ih (p+1) (n+1)]

theorem occDesc_agree (f : Nat → Nat) (P Q : Nat) (hPQ : P ≤ Q)
    (h : ∀ j, P < j → j ≤ Q → f j = 0) : occDesc f Q = occDesc f P := by
  revert h
  induction Q, hPQ using Nat.le_induction with
  | base =>
    intro _
    rfl
  | succ n hn ih =>
    intro h
    have hf : f (n + 1) = 0 := h (n + 1) (by omega) le_rfl
    simp only [occDesc]
    rw [if_neg (by omega), List.nil_append]
    exact ih (fun j h1 h2 => h j h1 (by omega))

theorem occAscFrom_shift (f : Nat → Nat) (d : Nat) :
    ∀ fuel p, (∀ j, p ≤ j → j < p + d → f j = 0) →
      occAscFrom f (d + fuel) p = occAscFrom f fuel (p + d) := by
  induction d with
  | zero =>
    intro fuel p _
    rw [Nat.zero_add, Nat.add_zero]
  | succ d ih =>
    intro fuel p h
    have harith : d + 1 + fuel = (d + fuel) + 1 := by omega
    rw [harith]
    simp only [occAscFrom]
    have hf : f p = 0 := h p le_rfl (by omega)
    rw [if_neg (by omega), List.nil_append]
    rw [ih fuel (p+1) (fun j h1 h2 => h j (by omega) (by omega))]
    congr 1
    omega

theorem occDesc_mem (f : Nat → Nat) :
    ∀ P (x : Int × Nat), x ∈ occDesc f P ↔ ∃ j, j ≤ P ∧ 0 < f j ∧ x = ((j : Int), f j) := by
  intro P
  induction P with
  | zero =>
    intro x
    simp only [occDesc]
    by_cases h : f 0 > 0
    · rw [if_pos h]
      simp only [List.mem_singleton]
      constructor
      · intro hx
        exact ⟨0, le_rfl, h, by simpa using hx⟩
      · rintro ⟨j, hj, hfj, rfl⟩
        have hj0 : j = 0 := by omega
        subst hj0
        simp
    · rw [if_neg h]
      simp only [List.not_mem_nil, false_iff]
      rintro ⟨j, hj, hfj, rfl⟩
      have hj0 : j = 0 := by omega
      subst hj0
      exact h hfj
  | succ P ih =>
    intro x
    simp only [occDesc, List.mem_append]
    by_cases h : f (P+1) > 0
    · rw [if_pos h]
      simp only [List.mem_singleton]
      constructor
      · rintro (rfl | hx)
        · exact ⟨P + 1, le_rfl, h, rfl⟩
        · obtain ⟨j, hj, hfj, rfl⟩ := (ih x).mp hx
          exact ⟨j, by omega, hfj, rfl⟩
      · rintro ⟨j, hj, hfj, rfl⟩
        by_cases hjP : j = P + 1
        · subst hjP
          exact Or.inl rfl
        · exact Or.inr ((ih _).mpr ⟨j, by omega, hfj, rfl⟩)
    · rw [if_neg h]
      simp only [List.not_mem_nil, false_or]
      rw [ih x]
      constructor
      · rintro ⟨j, hj, hfj, rfl⟩
        exact ⟨j, by omega, hfj, rfl⟩
      · rintro ⟨j, hj, hfj, rfl⟩
        by_cases hjP : j = P + 1
        · subst hjP
          exact absurd hfj (by omega)
        · exact ⟨j, by omega, hfj, rfl⟩

theorem occAscFrom_mem (f : Nat → Nat) :
    ∀ fuel p (x : Int × Nat), x ∈ occAscFrom f fuel p ↔
      ∃ j, p ≤ j ∧ j < p + fuel ∧ 0 < f j ∧ x = ((j : Int), f j) := by
  intro fuel
  induction fuel with
  | zero =>
    intro p x
    simp only [occAscFrom, List.not_mem_nil, false_iff]
    rintro ⟨j, h1, h2, _, _⟩
    omega
  | succ fuel ih =>
    intro p x
    simp only [occAscFrom, List.mem_append]
    by_cases h : f p > 0
    · rw [if_pos h]
      simp only [List.mem_singleton]
      constructor
      · rintro (rfl | hx)
        · exact ⟨p, le_rfl, by omega, h, rfl⟩
        · obtain ⟨j, hj1, hj2, hfj, rfl⟩ := (ih (p+1) x).mp hx
          exact ⟨j, by omega, by omega, hfj, rfl⟩
      · rintro ⟨j, hj1, hj2, hfj, rfl⟩
        by_cases hjp : j = p
        · subst hjp
          exact Or.inl rfl
        · exact Or.inr ((ih (p+1) _).mpr ⟨j, by omega, by omega, hfj, rfl⟩)
    · rw [if_neg h]
      simp only [List.not_mem_nil, false_or]
      rw [ih (p+1) x]
      constructor
      · rintro ⟨j, hj1, hj2, hfj, rfl⟩
        exact ⟨j, by omega, by omega, hfj, rfl⟩
      · rintro ⟨j, hj1, hj2, hfj, rfl⟩
        by_cases hjp : j = p
        · subst hjp
          exact absurd hfj (by omega)
        · exact ⟨j, by omega, by omega, hfj, rfl⟩

theorem occDesc_pairwise (f : Nat → Nat) :
    ∀ P, List.Pairwise (fun a b : Int × Nat => b.1 < a.1) (occDesc f P) := by
  intro P
  induction P with
  | zero =>
    simp only [occDesc]
    by_cases h : f 0 > 0
    · rw [if_pos h]
      simp
    · rw [if_neg h]
      simp
  | succ P ih =>
    simp only [occDesc]
    by_cases h : f (P+1) > 0
    · rw [if_pos h, List.singleton_append, List.pairwise_cons]
      refine ⟨fun b hb => ?_, ih⟩
      obtain ⟨j, hj, _, rfl⟩ := (occDesc_mem f P b).mp hb
      show (j : Int) < ((P + 1 : Nat) : Int)
      exact_mod_cast by omega
    · rw [if_neg h, List.nil_append]
      exact ih

theorem occAscFrom_pairwise (f : Nat → Nat) :
    ∀ fuel p, List.Pairwise (fun a b : Int × Nat => a.1 < b.1) (occAscFrom f fuel p) := by
  intro fuel
  induction fuel with
  | zero =>
    intro p
    simp [occAscFrom]
  | succ fuel ih =>
    intro p
    simp only [occAscFrom]
    by_cases h : f p > 0
    · rw [if_pos h, List.singleton_append, List.pairwise_cons]
      refine ⟨fun b hb => ?_, ih (p+1)⟩
      obtain ⟨j, hj1, hj2, _, rfl⟩ := (occAscFrom_mem f fuel (p+1) b).mp hb
      show (p : Int) < (j : Int)
      exact_mod_cast by omega
    · rw [if_neg h, List.nil_append]
      exact ih (p+1)

theorem top_bid_take (s : OrderBookImpl) (h : Reachable s) (n : Nat) :
    OrderBookImpl.get_top_levels s Side.Bid n = (occDescFull s.bids).take n := by
  obtain ⟨_, _, _, _, _, _, beb, _, _, _⟩ := inv_reachable h
  have hMP : MAX_PRICE = 200001 := rfl
  simp only [OrderBookImpl.get_top_levels]
  cases hmo : maxOccupied s.bids MAX_PRICE with
  | none =>
    have hz := (maxOccupied_eq_none_iff _ _).mp hmo
    have hb : s.best_bid = -1 := by
      rw [beb, hmo]
      rfl
    rw [hb, if_pos (by norm_num : (-1 : Int) < 0)]
    have hempty : occDescFull s.bids = [] := by
      unfold occDescFull
      rw [occDesc_agree s.bids 0 (MAX_PRICE - 1) (by omega)
        (fun j h1 h2 => hz j (by omega))]
      have h0 : s.bids 0 = 0 := hz 0 (by omega)
      simp only [occDesc]
      rw [if_neg (by omega)]
    rw [hempty, List.take_nil]
  | some M =>
    obtain ⟨hM, hfM, hmax⟩ := (maxOccupied_eq_some_iff s.bids MAX_PRICE M).mp hmo
    have hb : s.best_bid = (M : Int) := by
      rw [beb, hmo]
      rfl
    rw [hb, if_neg (by push_neg; exact Int.natCast_nonneg M), Int.toNat_natCast,
      topBidAux_take]
    congr 1
    unfold occDescFull
    exact (occDesc_agree s.bids M (MAX_PRICE - 1) (by omega)
      (fun j h1 h2 => hmax j h1 (by omega))).symm

theorem top_ask_take (s : OrderBookImpl) (h : Reachable s) (n : Nat) :
    OrderBookImpl.get_top_levels s Side.Ask n = (occAscFull s.asks).take n := by
  obtain ⟨_, _, _, _, _, _, _, bea, _, _⟩ := inv_reachable h
  have hMP : MAX_PRICE = 200001 := rfl
  simp only [OrderBookImpl.get_top_levels]
  cases hmo : minOccupied s.asks MAX_PRICE with
  | none =>
    have hz := (minOccupied_eq_none_iff _ _).mp hmo
    have hb : s.best_ask = -1 := by
      rw [bea, hmo]
      rfl
    rw [hb, if_pos (by norm_num : (-1 : Int) < 0)]
    have hshift := occAscFrom_shift s.asks MAX_PRICE 0 0
      (fun j h1 h2 => hz j (by omega))
    rw [Nat.add_zero] at hshift
    have hempty : occAscFull s.asks = [] := by
      unfold occAscFull
      rw [hshift]
      rfl
    rw [hempty, List.take_nil]
  | some M =>
    obtain ⟨hM, hfM, hmin⟩ := (minOccupied_eq_some_iff s.asks MAX_PRICE M).mp hmo
    have hb : s.best_ask = (M : Int) := by
      rw [bea, hmo]
      rfl
    rw [hb, if_neg (by push_neg; exact Int.natCast_nonneg M), Int.toNat_natCast,
      topAskAux_take]
    congr 1
    have hshift := occAscFrom_shift s.asks M (MAX_PRICE - M) 0
      (fun j h1 h2 => hmin j (by omega))
    rw [Nat.zero_add] at hshift
    unfold occAscFull
    rw [show M + (MAX_PRICE - M) = MAX_PRICE from by omega] at hshift
    rw [hshift]

/-- C8: in every reachable state, get_top_levels(side, n) is exactly the
first n entries of the full list of occupied levels of that side ordered
from the best price outward (so it has at most n entries, every entry has
positive quantity, prices are strictly descending for Bid and strictly
ascending for Ask, and n = 0 yields the empty sequence). -/
theorem top_levels_spec (s : OrderBookImpl) (h : Reachable s) (n : Nat) :
    (OrderBookImpl.get_top_levels s Side.Bid n = (occDescFull s.bids).take n ∧
      OrderBookImpl.get_top_levels s Side.Ask n = (occAscFull s.asks).take n) ∧
    (∀ side, (OrderBookImpl.get_top_levels s side n).length ≤ n) ∧
    (∀ side, ∀ x ∈ OrderBookImpl.get_top_levels s side n, 0 < x.2) ∧
    List.Pairwise (fun a b : Int × Nat => b.1 < a.1)
      (OrderBookImpl.get_top_levels s Side.Bid n) ∧
    List.Pairwise (fun a b : Int × Nat => a.1 < b.1)
      (OrderBookImpl.get_top_levels s Side.Ask n) ∧
    (n = 0 → ∀ side, OrderBookImpl.get_top_levels s side n = []) := by
  have hbid := top_bid_take s h n
  have hask := top_ask_take s h n
  refine ⟨⟨hbid, hask⟩, ?_, ?_, ?_, ?_, ?_⟩
  · intro side
    cases side
    · rw [hbid]
      exact List.length_take_le n _
    · rw [hask]
      exact List.length_take_le n _
  · intro side x hx
    cases side
    · rw [hbid] at hx
      have hx' := List.take_subset _ _ hx
      obtain ⟨j, _, hfj, rfl⟩ := (occDesc_mem s.bids (MAX_PRICE - 1) x).mp hx'
      exact hfj
    · rw [hask] at hx
      have hx' := List.take_subset _ _ hx
      obtain ⟨j, _, _, hfj, rfl⟩ := (occAscFrom_mem s.asks MAX_PRICE 0 x).mp hx'
      exact hfj
  · rw [hbid]
    exact List.Pairwise.sublist (List.take_sublist _ _)
      (occDesc_pairwise s.bids (MAX_PRICE - 1))
  · rw [hask]
    exact List.Pairwise.sublist (List.take_sublist _ _)
      (occAscFrom_pairwise s.asks MAX_PRICE 0)
  · rintro rfl side
    cases side
    · rw [hbid, List.take_zero]
    · rw [hask, List.take_zero]

/-- Witness for C8 on a concrete reachable state with n = 1. -/
theorem top_levels_spec_witness :
    (OrderBookImpl.get_top_levels
        ((newOrderBook.applyUpdate (Update.Set 100 10 Side.Bid)).applyUpdate
          (Update.Set 105 5 Side.Ask)) Side.Bid 1 =
      (occDescFull ((newOrderBook.applyUpdate (Update.Set 100 10 Side.Bid)).applyUpdate
          (Update.Set 105 5 Side.Ask)).bids).take 1 ∧
      OrderBookImpl.get_top_levels
        ((newOrderBook.applyUpdate (Update.Set 100 10 Side.Bid)).applyUpdate
          (Update.Set 105 5 Side.Ask)) Side.Ask 1 =
      (occAscFull ((newOrderBook.applyUpdate (Update.Set 100 10 Side.Bid)).applyUpdate
          (Update.Set 105 5 Side.Ask)).asks).take 1) ∧
    (∀ side, (OrderBookImpl.get_top_levels
        ((newOrderBook.applyUpdate (Update.Set 100 10 Side.Bid)).applyUpdate
          (Update.Set 105 5 Side.Ask)) side 1).length ≤ 1) ∧
    (∀ side, ∀ x ∈ OrderBookImpl.get_top_levels
        ((newOrderBook.applyUpdate (Update.Set 100 10 Side.Bid)).applyUpdate
          (Update.Set 105 5 Side.Ask)) side 1, 0 < x.2) ∧
    List.Pairwise (fun a b : Int × Nat => b.1 < a.1)
      (OrderBookImpl.get_top_levels
        ((newOrderBook.applyUpdate (Update.Set 100 10 Side.Bid)).applyUpdate
          (Update.Set 105 5 Side.Ask)) Side.Bid 1) ∧
    List.Pairwise (fun a b : Int × Nat => a.1 < b.1)
      (OrderBookImpl.get_top_levels
        ((newOrderBook.applyUpdate (Update.Set 100 10 Side.Bid)).applyUpdate
          (Update.Set 105 5 Side.Ask)) Side.Ask 1) ∧
    ((1 : Nat) = 0 → ∀ side, OrderBookImpl.get_top_levels
        ((newOrderBook.applyUpdate (Update.Set 100 10 Side.Bid)).applyUpdate
          (Update.Set 105 5 Side.Ask)) side 1 = []) :=
  top_levels_spec _
    (Reachable.step _ _ (Reachable.step _ _ Reachable.init (by decide)) (by decide)) 1
